import Mathlib

/-!
# Verification of the quota-gated AI-generation pipeline

Shallow embedding, over `List Char`, of the core of the `jobhunter-api`
repository:

* `app/services/gemini_service.py` — the LLM-response JSON extractor and the
  truncation-repair helper (`GeminiService._extract_json`,
  `GeminiService._repair_truncated_json`), together with a model of Python's
  `json.loads` / `json.dumps` restricted to integer numerals (no floats) and
  to scalar (non-surrogate) characters;
* `app/services/rate_limiter.py` — the tier-to-allowance policy
  (`_get_quota_for_tier`), the Redis-backed limiter (`RedisRateLimiter`) over
  an explicit key-value store, and the in-memory `RateLimiter` class with its
  self-referential fallback, modelled with explicit recursion fuel;
* `app/api/routes/cv_generator.py` — the `generate_cv` and
  `generate_cover_letter` request handlers, instrumented with an event log to
  state ordering properties of check / provider-call / increment;
* `app/services/user_service.py` — `revert_user_to_free_tier` over a model of
  Firestore single-document `update` (top-level fields replaced wholesale).

Strings are `List Char`; Python `None` for optional arguments is `Option`;
fallible operations return `Option`/`Except`.  Machine integers do not occur
(Python integers are unbounded), so `Int`/`Nat` are exact.
-/

namespace JobHunter

/-! ## Python string primitives (`str.strip`, `str.split`, `in`, `str.lower`) -/

/-- Characters treated as whitespace by Python `str.strip()` (ASCII range;
the source never feeds non-ASCII whitespace to `strip`). -/
def isPyWs (c : Char) : Bool :=
  c = ' ' || c = '\t' || c = '\n' || c = '\r' || c = '\x0b' || c = '\x0c'

/-- Characters matched by Python's regex `\s` (ASCII range). -/
def isReWs (c : Char) : Bool :=
  c = ' ' || c = '\t' || c = '\n' || c = '\r' || c = '\x0b' || c = '\x0c'

/-- Python `str.lstrip()`. -/
def pyLstrip (l : List Char) : List Char := l.dropWhile isPyWs

/-- Python `str.rstrip()`. -/
def pyRstrip (l : List Char) : List Char := (l.reverse.dropWhile isPyWs).reverse

/-- Python `str.strip()`. -/
def pyStrip (l : List Char) : List Char := pyRstrip (pyLstrip l)

/-- Python `str.rstrip(",")`: remove all trailing comma characters. -/
def rstripCommas (l : List Char) : List Char :=
  (l.reverse.dropWhile (fun c => c = ',')).reverse

/-- Python `str.lower()` restricted to ASCII (the tier labels in play are
ASCII). -/
def pyLower (l : List Char) : List Char := l.map Char.toLower

/-- Python `text.split(sep, 1)` for nonempty `sep`, keeping only the split
around the first occurrence: `some (before, after)` when `sep` occurs in
`text`, `none` otherwise (Python then returns the single-element list
`[text]`; call sites always guard with `sep in text`). -/
def pySplitOnce (sep : List Char) : List Char → Option (List Char × List Char)
  | [] => if sep.isEmpty then some ([], []) else none
  | c :: r =>
    if sep.isPrefixOf (c :: r) then some ([], (c :: r).drop sep.length)
    else
      match pySplitOnce sep r with
      | some (a, b) => some (c :: a, b)
      | none => none

/-- Python `sep in text` (substring containment), for nonempty `sep`. -/
def hasSub (sep l : List Char) : Bool := (pySplitOnce sep l).isSome

/-- Python `text.split("\n")`: always at least one (possibly empty) piece. -/
def splitOnNl : List Char → List (List Char)
  | [] => [[]]
  | c :: r =>
    if c = '\n' then [] :: splitOnNl r
    else
      match splitOnNl r with
      | l :: ls => (c :: l) :: ls
      | [] => [[c]]

/-- Python `"\n".join(lines)`. -/
def joinNl : List (List Char) → List Char
  | [] => []
  | [l] => l
  | l :: ls => l ++ '\n' :: joinNl ls

/-- Python `text.count(c)` for a single-character needle. -/
def countChar (c : Char) (l : List Char) : Nat := l.count c

/-- Python `ch * n` for a possibly non-positive `n` (empty when `n ≤ 0`). -/
def repeatChar (c : Char) (n : Int) : List Char := List.replicate n.toNat c

/-- List ends-with test, Python `str.endswith`. -/
def endsWith (suf l : List Char) : Bool := suf.isSuffixOf l

/-- The opening-brace character, written via its code point. -/
def lb : Char := Char.ofNat 123

/-- The closing-brace character, written via its code point. -/
def rb : Char := Char.ofNat 125

/-- The opening-bracket character. -/
def lsq : Char := '['

/-- The closing-bracket character. -/
def rsq : Char := ']'

/-- The double-quote character. -/
def dq : Char := '"'

/-- The backslash character. -/
def bs : Char := '\\'

/-! ## A model of Python `json` values, `json.dumps` and `json.loads`

Numbers are restricted to integers (`Int`): every numeric literal the source
produces or repairs is an integer, and Python floats are outside this model
(the parser rejects a fraction or exponent part instead of misreading it).
Characters are Unicode scalar values, so lone surrogates (which CPython's
`json` tolerates) are rejected by the model's parser. -/

/-- A JSON value; objects are association lists in textual order. -/
inductive Json where
  | null
  | bool (b : Bool)
  | num (n : Int)
  | str (s : List Char)
  | arr (elems : List Json)
  | obj (members : List (List Char × Json))

/-- Lower-case hexadecimal digit for `n < 16`, as emitted by `json.dumps`. -/
def hexDig (n : Nat) : Char :=
  if n < 10 then Char.ofNat (48 + n) else Char.ofNat (97 + (n - 10))

/-- JSON escape of one character, as emitted by `json.dumps` for the
characters the model can print (short escapes, then `\u00XX` for the
remaining control characters, other characters verbatim). -/
def escChar (c : Char) : List Char :=
  if c = dq then [bs, dq]
  else if c = bs then [bs, bs]
  else if c = '\n' then [bs, 'n']
  else if c = '\r' then [bs, 'r']
  else if c = '\t' then [bs, 't']
  else if c = '\x08' then [bs, 'b']
  else if c = '\x0c' then [bs, 'f']
  else if c.toNat < 32 then
    [bs, 'u', '0', '0', hexDig (c.toNat / 16), hexDig (c.toNat % 16)]
  else [c]

/-- JSON escape of a whole string body. -/
def escStr : List Char → List Char
  | [] => []
  | c :: r => escChar c ++ escStr r

/-- Decimal digit characters of a natural number, most significant first;
structural on a fuel that `natDigits` instantiates adequately (`n < fuel`). -/
def natDigitsAux : Nat → Nat → List Char
  | 0, _ => []
  | fuel + 1, n =>
    if n < 10 then [Char.ofNat (48 + n)]
    else natDigitsAux fuel (n / 10) ++ [Char.ofNat (48 + n % 10)]

/-- Decimal digit characters of a natural number, most significant first. -/
def natDigits (n : Nat) : List Char := natDigitsAux (n + 1) n

/-- Decimal rendering of an integer, Python `str(int)`. -/
def intChars (i : Int) : List Char :=
  if i < 0 then '-' :: natDigits i.natAbs else natDigits i.natAbs

mutual

/-- Model of Python `json.dumps` with its default separators
`", "` and `": "`. -/
def dumps : Json → List Char
  | .obj ms => lb :: (dumpsMems ms ++ [rb])
  | .arr es => lsq :: (dumpsElems es ++ [rsq])
  | .str s => dq :: (escStr s ++ [dq])
  | .num n => intChars n
  | .bool true => "true".toList
  | .bool false => "false".toList
  | .null => "null".toList

/-- Array elements joined by `", "`. -/
def dumpsElems : List Json → List Char
  | [] => []
  | e :: es => dumps e ++ dumpsElemsSep es

/-- Trailing array elements, each preceded by `", "`. -/
def dumpsElemsSep : List Json → List Char
  | [] => []
  | e :: es => ',' :: ' ' :: (dumps e ++ dumpsElemsSep es)

/-- Object members joined by `", "`, each `"key": value`. -/
def dumpsMems : List (List Char × Json) → List Char
  | [] => []
  | (k, v) :: ms => dq :: (escStr k ++ (dq :: ':' :: ' ' :: (dumps v ++ dumpsMemsSep ms)))

/-- Trailing object members, each preceded by `", "`. -/
def dumpsMemsSep : List (List Char × Json) → List Char
  | [] => []
  | (k, v) :: ms =>
    ',' :: ' ' :: (dq :: (escStr k ++ (dq :: ':' :: ' ' :: (dumps v ++ dumpsMemsSep ms))))

end

/-- Whitespace skipped by the `json` decoder (`' '`, `'\t'`, `'\n'`, `'\r'`). -/
def isJsonWs (c : Char) : Bool := c = ' ' || c = '\t' || c = '\n' || c = '\r'

/-- Skip decoder whitespace. -/
def skipWs (l : List Char) : List Char := l.dropWhile isJsonWs

/-- Numeric value of a hexadecimal digit character. -/
def hexVal (c : Char) : Option Nat :=
  if 48 ≤ c.toNat ∧ c.toNat ≤ 57 then some (c.toNat - 48)
  else if 97 ≤ c.toNat ∧ c.toNat ≤ 102 then some (c.toNat - 97 + 10)
  else if 65 ≤ c.toNat ∧ c.toNat ≤ 70 then some (c.toNat - 65 + 10)
  else none

/-- Value of a four-digit hexadecimal escape. -/
def hex4 (a b c d : Char) : Option Nat := do
  let va ← hexVal a
  let vb ← hexVal b
  let vc ← hexVal c
  let vd ← hexVal d
  return ((va * 16 + vb) * 16 + vc) * 16 + vd

/-- Single-letter JSON escapes. -/
def unescChar (c : Char) : Option Char :=
  if c = dq then some dq
  else if c = bs then some bs
  else if c = '/' then some '/'
  else if c = 'b' then some '\x08'
  else if c = 'f' then some '\x0c'
  else if c = 'n' then some '\n'
  else if c = 'r' then some '\r'
  else if c = 't' then some '\t'
  else none

/-- Parse a JSON string body after the opening quote: strict about raw
control characters (as CPython is), rejecting `\u` escapes in the surrogate
range (the model's characters are scalar values). -/
def parseStrBody : List Char → Option (List Char × List Char)
  | [] => none
  | c :: r =>
    if c = dq then some ([], r)
    else if c = bs then
      match r with
      | [] => none
      | e :: r2 =>
        if e = 'u' then
          match r2 with
          | a :: b :: c3 :: d :: r3 =>
            match hex4 a b c3 d with
            | some n =>
              if 55296 ≤ n ∧ n ≤ 57343 then none
              else (parseStrBody r3).map (fun p => (Char.ofNat n :: p.1, p.2))
            | none => none
          | _ => none
        else
          match unescChar e with
          | some ch => (parseStrBody r2).map (fun p => (ch :: p.1, p.2))
          | none => none
    else if c.toNat < 32 then none
    else (parseStrBody r).map (fun p => (c :: p.1, p.2))

/-- Decimal value of a digit run. -/
def digitsVal (ds : List Char) : Nat :=
  ds.foldl (fun a c => a * 10 + (c.toNat - 48)) 0

/-- Start of a fraction or exponent part after a digit run. -/
def floatStart : List Char → Bool
  | [] => false
  | c :: _ => c = '.' || c = 'e' || c = 'E'

/-- Parse an unsigned JSON integer: a digit run with no leading zero,
rejecting a following `.`/`e`/`E` (floats are outside the model). -/
def parseNatPart (cs : List Char) : Option (Nat × List Char) :=
  if (cs.takeWhile Char.isDigit).isEmpty then none
  else if 1 < (cs.takeWhile Char.isDigit).length
      ∧ (cs.takeWhile Char.isDigit).head? = some '0' then none
  else if floatStart (cs.dropWhile Char.isDigit) then none
  else some (digitsVal (cs.takeWhile Char.isDigit), cs.dropWhile Char.isDigit)

/-- Parse a JSON integer with optional minus sign. -/
def parseNum (cs : List Char) : Option (Int × List Char) :=
  if cs.head? = some '-' then
    (parseNatPart cs.tail).map (fun p => (-(p.1 : Int), p.2))
  else (parseNatPart cs).map (fun p => ((p.1 : Int), p.2))

mutual

/-- Model of the `json` decoder's value scanner: structural on explicit
fuel, which every recursive call decrements. -/
def parseVal (fuel : Nat) (cs : List Char) : Option (Json × List Char) :=
  match fuel with
  | 0 => none
  | fuel + 1 =>
    match skipWs cs with
    | [] => none
    | c :: r =>
      if c = 'n' then
        match r with
        | 'u' :: 'l' :: 'l' :: r2 => some (.null, r2)
        | _ => none
      else if c = 't' then
        match r with
        | 'r' :: 'u' :: 'e' :: r2 => some (.bool true, r2)
        | _ => none
      else if c = 'f' then
        match r with
        | 'a' :: 'l' :: 's' :: 'e' :: r2 => some (.bool false, r2)
        | _ => none
      else if c = dq then
        (parseStrBody r).map (fun p => (.str p.1, p.2))
      else if c = lsq then
        match skipWs r with
        | [] => none
        | c2 :: r2 =>
          if c2 = rsq then some (.arr [], r2)
          else (parseElems fuel (c2 :: r2)).map (fun p => (.arr p.1, p.2))
      else if c = lb then
        match skipWs r with
        | [] => none
        | c2 :: r2 =>
          if c2 = rb then some (.obj [], r2)
          else (parseMems fuel (c2 :: r2)).map (fun p => (.obj p.1, p.2))
      else if c = '-' || c.isDigit then
        (parseNum (c :: r)).map (fun p => (.num p.1, p.2))
      else none

/-- One or more comma-separated array elements followed by `]`. -/
def parseElems (fuel : Nat) (cs : List Char) : Option (List Json × List Char) :=
  match fuel with
  | 0 => none
  | fuel + 1 =>
    match parseVal fuel cs with
    | none => none
    | some (v, r) =>
      match skipWs r with
      | [] => none
      | c :: r2 =>
        if c = ',' then (parseElems fuel r2).map (fun p => (v :: p.1, p.2))
        else if c = rsq then some ([v], r2)
        else none

/-- One or more comma-separated object members followed by a closing brace. -/
def parseMems (fuel : Nat) (cs : List Char) :
    Option (List (List Char × Json) × List Char) :=
  match fuel with
  | 0 => none
  | fuel + 1 =>
    match skipWs cs with
    | [] => none
    | c :: r =>
      if c = dq then
        match parseStrBody r with
        | none => none
        | some (k, r1) =>
          match skipWs r1 with
          | [] => none
          | c2 :: r2 =>
            if c2 = ':' then
              match parseVal fuel r2 with
              | none => none
              | some (v, r3) =>
                match skipWs r3 with
                | [] => none
                | c3 :: r4 =>
                  if c3 = ',' then (parseMems fuel r4).map (fun p => ((k, v) :: p.1, p.2))
                  else if c3 = rb then some ([(k, v)], r4)
                  else none
            else none
      else none

end

/-- Model of Python `json.loads`: parse one value, then require only
whitespace to remain.  `none` models a raised `json.JSONDecodeError`. -/
def jsonLoads (cs : List Char) : Option Json :=
  match parseVal (cs.length + 1) cs with
  | some (v, r) => if (skipWs r).isEmpty then some v else none
  | none => none

/-! ## The repair helper `GeminiService._repair_truncated_json` -/

/-- The opening fence marker with language label, Python `"\x60\x60\x60json"`. -/
def fenceJson : List Char := "```json".toList

/-- The bare fence marker. -/
def fence3 : List Char := "```".toList

/-- Word characters of the regex `\w` (ASCII range, as the property names in
play are ASCII). -/
def isWordChar (c : Char) : Bool := c.isAlphanum || c = '_'

/-- Match of the regex `"(\w+)"\s*:` anchored at the start of the input,
returning the captured group. -/
def matchPropAt : List Char → Option (List Char)
  | [] => none
  | c :: r =>
    if c = dq then
      let w := r.takeWhile isWordChar
      match r.dropWhile isWordChar with
      | c2 :: r3 =>
        if w.isEmpty then none
        else if c2 = dq then
          match (r3.dropWhile isReWs).head? with
          | some c4 => if c4 = ':' then some w else none
          | none => none
        else none
      | [] => none
    else none

/-- Leftmost match of `re.search(r'"(\w+)"\s*:', line)`, capture group 1. -/
def findPropName : List Char → Option (List Char)
  | [] => none
  | c :: r =>
    match matchPropAt (c :: r) with
    | some w => some w
    | none => findPropName r

/-- Loop state of the line scan in `_repair_truncated_json`
(`in_array`, `array_item_count`, `current_property`). -/
structure ScanState where
  inArray : Bool
  arrayItemCount : Nat
  currentProp : Option (List Char)

/-- Initial loop state (`False`, `0`, `None`). -/
def scanInit : ScanState := ⟨false, 0, none⟩

/-- One iteration of the `for line in lines` loop: strip a trailing dangling
comma, track array openings/closings, and record the last matched property
name; returns the updated state and the (possibly rewritten) line. -/
def scanLine (st : ScanState) (line : List Char) : ScanState × List Char :=
  let line :=
    if endsWith [','] (pyStrip line) ∧ ¬ endsWith [dq, ','] (pyStrip line) then
      rstripCommas line
    else line
  let inA := if hasSub [lsq] line ∧ ¬ hasSub [rsq] line then true else st.inArray
  let cnt := if inA ∧ hasSub [','] line then st.arrayItemCount + 1 else st.arrayItemCount
  let inA2 := if hasSub [rsq] line then false else inA
  let prop :=
    match findPropName line with
    | some w => some w
    | none => st.currentProp
  (⟨inA2, cnt, prop⟩, line)

/-- The whole line scan, returning the final state and the cleaned lines. -/
def scanLines (st : ScanState) : List (List Char) → ScanState × List (List Char)
  | [] => (st, [])
  | l :: ls =>
    let (st1, l1) := scanLine st l
    let (st2, ls1) := scanLines st1 ls
    (st2, l1 :: ls1)

/-- Fenced-content selection at the top of `_repair_truncated_json`:
re-extract a ```json fenced block when present, else strip. -/
def repairSelect (text : List Char) : List Char :=
  match pySplitOnce fenceJson text with
  | some (_, after) =>
    match pySplitOnce fence3 after with
    | some (inner, _) => pyStrip inner
    | none => pyStrip after
  | none => pyStrip text

/-- Content selection of `_repair_truncated_json`: the fence-selected strip,
forced to a `\x7b` start (cut to the first `\x7b`, or the empty object when
there is none). -/
def repairContent (text : List Char) : List Char :=
  if (repairSelect text).head? = some lb then repairSelect text
  else
    match pySplitOnce [lb] (repairSelect text) with
    | some (_, after) => lb :: after
    | none => [lb, rb]

/-- Additions made after the line scan: the default relevance score when the
last seen property was `relevanceScore`, then an array closer when the scan
believes an array is still open. -/
def scanAppend (st : ScanState) (c : List Char) : List Char :=
  if st.inArray then
    (if st.currentProp = some ("relevanceScore".toList) then c ++ (" 60".toList) else c) ++ [rsq]
  else
    (if st.currentProp = some ("relevanceScore".toList) then c ++ (" 60".toList) else c)

/-- The cleaned content: scanned lines re-joined, plus the scan additions. -/
def repairScanned (content : List Char) : List Char :=
  scanAppend (scanLines scanInit (splitOnNl content)).1
    (joinNl (scanLines scanInit (splitOnNl content)).2)

/-- The number of unmatched opening braces, `content.count("\x7b") -
content.count("\x7d")` as a Python integer. -/
def braceCount (content : List Char) : Int :=
  (countChar lb content : Int) - (countChar rb content : Int)

/-- The number of unmatched opening brackets. -/
def bracketCount (content : List Char) : Int :=
  (countChar lsq content : Int) - (countChar rsq content : Int)

/-- Structure completion: when braces or brackets are unmatched, run the line
scan, append the scan additions, then append the missing `\x7d`s and `]`s —
in that order, as the source does. -/
def repairClose (content : List Char) : List Char :=
  if 0 < braceCount content ∨ 0 < bracketCount content then
    repairScanned content ++ repeatChar rb (braceCount content)
      ++ repeatChar rsq (bracketCount content)
  else content

/-- Repaired content before the final validation step: structure completion,
then a final `\x7d` when the string does not already end with one. -/
def repairCore (text : List Char) : List Char :=
  if endsWith [rb] (repairClose (repairContent text)) then repairClose (repairContent text)
  else repairClose (repairContent text) ++ [rb]

/-- Consumption step of the regex `,\s*X` after the comma: skip whitespace,
then require the closer, returning the remainder. -/
def matchCommaWsAt (close : Char) : List Char → Option (List Char)
  | [] => none
  | c :: r =>
    if isReWs c then matchCommaWsAt close r
    else if c = close then some r else none

/-- Scan step of `re.sub(r',\s*X', 'X', s)`, structural on a fuel that
`subCommaWs` instantiates adequately (every step consumes at least one
character, so the input length suffices). -/
def subCommaWsAux (close : Char) : Nat → List Char → List Char
  | _, [] => []
  | 0, l => l
  | fuel + 1, c :: r =>
    if c = ',' then
      match matchCommaWsAt close r with
      | some r2 => close :: subCommaWsAux close fuel r2
      | none => c :: subCommaWsAux close fuel r
    else c :: subCommaWsAux close fuel r

/-- Model of `re.sub(r',\s*X', 'X', s)` for a closer `X`: scan left to
right, replacing every comma-whitespace-closer run by the closer alone and
continuing after the match. -/
def subCommaWs (close : Char) (l : List Char) : List Char :=
  subCommaWsAux close l.length l

/-- The minimal fallback object returned by the repair helper's validation
branch. -/
def repairFallback : List Char :=
  "\x7b\"fullName\": \"Repair Failed\", \"error\": \"Could not extract complete CV data\"\x7d".toList

/-- Model of `GeminiService._repair_truncated_json`: content selection,
structure completion, the final-brace guarantee, then the validation branch
(return the fallback unless the string starts with `\x7b` and ends with
`\x7d`) and the trailing-comma cleanup `,\s*\x7d` then `,\s*]`. -/
def repairTruncatedJson (text : List Char) : List Char :=
  if (repairCore text).head? = some lb ∧ (repairCore text).getLast? = some rb then
    subCommaWs rsq (subCommaWs rb (repairCore text))
  else repairFallback

/-! ## The extractor `GeminiService._extract_json` -/

/-- Final branch of the extractor's `try` block: on a truncation signature
(starts with `\x7b`, does not end with `\x7d`) parse the repaired strip,
otherwise parse the strip itself. -/
def extractPlain (text : List Char) : Option Json :=
  let t := pyStrip text
  if t.head? = some lb ∧ ¬ (t.getLast? = some rb) then jsonLoads (repairTruncatedJson t)
  else jsonLoads t

/-- Second branch: an unlabeled fenced block, when one is properly closed. -/
def extractNoJsonFence (text : List Char) : Option Json :=
  match pySplitOnce fence3 text with
  | some (_, r1) =>
    match pySplitOnce fence3 r1 with
    | some (inner, _) => jsonLoads (pyStrip inner)
    | none => extractPlain text
  | none => extractPlain text

/-- The extractor's `try` block: `none` models a raised
`json.JSONDecodeError` (or `IndexError`) escaping the block. -/
def extractTry (text : List Char) : Option Json :=
  match pySplitOnce fenceJson text with
  | some (_, r1) =>
    match pySplitOnce fence3 r1 with
    | some (inner, _) => jsonLoads (pyStrip inner)
    | none => extractNoJsonFence text
  | none => extractNoJsonFence text

/-- Error message of the `ValueError` raised when even the aggressive repair
fails to parse (the dynamic suffix of the Python message is not modelled). -/
def extractErr : List Char := "Failed to extract valid JSON from Gemini response".toList

/-- Model of `GeminiService._extract_json`: run the `try` block; on a parse
error, parse the aggressively repaired full text; if that also fails, raise
`ValueError` (the `error` branch). -/
def extractJson (text : List Char) : Except (List Char) Json :=
  match extractTry text with
  | some v => .ok v
  | none =>
    match jsonLoads (repairTruncatedJson text) with
    | some v => .ok v
    | none => .error extractErr

/-! ## The rate limiter (`app/services/rate_limiter.py`) -/

/-- Configured free-tier daily allowance (`settings.FREE_DAILY_QUOTA`). -/
def freeDailyQuota : Int := 5

/-- Configured premium daily allowance (`settings.PREMIUM_DAILY_QUOTA`). -/
def premiumDailyQuota : Int := 50

/-- Model of `_get_quota_for_tier` (identical in `RateLimiter` and
`RedisRateLimiter`): `none` is Python `None`; the guard is
`tier and tier.lower().strip() not in ["free", "", None]`. -/
def getQuotaForTier (tier : Option (List Char)) : Int :=
  match tier with
  | none => freeDailyQuota
  | some t =>
    if ¬ t.isEmpty ∧ ¬ (pyStrip (pyLower t) = ("free".toList)) ∧ ¬ (pyStrip (pyLower t) = []) then
      premiumDailyQuota
    else freeDailyQuota

/-- The Redis key-value store visible to the limiter: counters keyed by the
formatted day key, absent keys reading as 0 on `GET`.  Expiry is not
modelled (it never changes a value within the claims' scope). -/
structure RedisStore where
  entries : List (List Char × Int)

/-- Value of `GET key` (`None` when absent). -/
def redisGet (st : RedisStore) (key : List Char) : Option Int :=
  (st.entries.find? (fun e => e.1 = key)).map Prod.snd

/-- Key update in an association list: replace the first binding in place,
or append a new one. -/
def alistSet {α : Type} (k : List Char) (v : α) :
    List (List Char × α) → List (List Char × α)
  | [] => [(k, v)]
  | e :: d => if e.1 = k then (k, v) :: d else e :: alistSet k v d

/-- Store after `SET key v` (as produced by `INCR`). -/
def redisSet (st : RedisStore) (key : List Char) (v : Int) : RedisStore :=
  ⟨alistSet key v st.entries⟩

/-- The limiter's per-user day key
`f"\x7bself.key_prefix\x7du:\x7buser_uid\x7d:d:\x7bint(time.time() // 86400)\x7d"`,
with `now` the Unix time in seconds. -/
def dayKey (uid : List Char) (now : Nat) : List Char :=
  ("jobhunter_rl:u:".toList) ++ uid ++ (":d:".toList) ++ natDigits (now / 86400)

/-- Model of `RedisRateLimiter.check_limit` on the normal path (stored value
an integer; the `RedisError`/`ValueError` handlers, which read the count as
0, are outside the store model): returns `(remaining, limit_reached)` and
the unchanged store. -/
def redisCheckLimit (st : RedisStore) (now : Nat) (uid : List Char)
    (tier : Option (List Char)) : (Int × Bool) × RedisStore :=
  let count : Int := (redisGet st (dayKey uid now)).getD 0
  let quota := getQuotaForTier tier
  let remaining := max 0 (quota - count)
  ((remaining, decide (remaining ≤ 0)), st)

/-- Model of `RedisRateLimiter.increment`: `INCR` the day key (then refresh
its 48-hour expiry, not modelled) and return the new count. -/
def redisIncrement (st : RedisStore) (now : Nat) (uid : List Char)
    (_tier : Option (List Char)) : Int × RedisStore :=
  let key := dayKey uid now
  let newCount := (redisGet st key).getD 0 + 1
  (newCount, redisSet st key newCount)

/-- Attribute state of the in-memory `RateLimiter` singleton.  `__new__`
initializes only `user_counters`; no code path ever assigns `self.redis` on
this class (only `RedisRateLimiter.__new__` does, on its own class), so the
singleton's `redis` attribute is permanently absent (`redisAttr = none`). -/
structure LocalLimiterState where
  redisAttr : Option RedisStore
  userCounters : List (List Char × (Int × Nat))

/-- The singleton produced by `RateLimiter()`: empty counter map, no
`redis` attribute. -/
def localLimiterSingleton : LocalLimiterState := ⟨none, []⟩

/-- Model of the in-memory `RateLimiter.check_limit`.  When the `redis`
attribute is absent the method builds `fallback = RateLimiter()` — the very
same singleton, by the `_instance` pattern — and calls `check_limit` on it
again; `fuel` counts the remaining Python recursion depth and `none` models
the call never returning a value (the `RecursionError` that terminates the
actual recursion).  When a `redis` attribute is present the method reads the
day key and computes like the Redis limiter. -/
def localCheckLimit (fuel : Nat) (self : LocalLimiterState) (now : Nat)
    (uid : List Char) (tier : Option (List Char)) : Option (Int × Bool) :=
  match fuel with
  | 0 => none
  | fuel + 1 =>
    match self.redisAttr with
    | none => localCheckLimit fuel localLimiterSingleton now uid tier
    | some st =>
      let count : Int := (redisGet st (dayKey uid now)).getD 0
      let quota := getQuotaForTier tier
      let remaining := max 0 (quota - count)
      some (remaining, decide (remaining ≤ 0))

/-- Model of the in-memory `RateLimiter.increment`, with the same
absent-attribute fallback into the same singleton. -/
def localIncrement (fuel : Nat) (self : LocalLimiterState) (now : Nat)
    (uid : List Char) (tier : Option (List Char)) : Option Int :=
  match fuel with
  | 0 => none
  | fuel + 1 =>
    match self.redisAttr with
    | none => localIncrement fuel localLimiterSingleton now uid tier
    | some st =>
      let key := dayKey uid now
      some ((redisGet st key).getD 0 + 1)

/-! ## The generation endpoints (`app/api/routes/cv_generator.py`) -/

/-- Observable side-effecting steps of a generation request. -/
inductive GenEvent where
  | quotaCheck
  | providerCall
  | quotaIncrement
deriving DecidableEq

/-- Request-scoped context: the shared counter store plus the event log. -/
structure OrchCtx where
  store : RedisStore
  log : List GenEvent

/-- Configured premium-feature set: `settings.PREMIUM_FEATURES = []` (the
original list is commented out in `config.py`). -/
def premiumFeatures : List (List Char) := []

/-- The feature name checked by `generate_cv`. -/
def cvFeature : List Char := "gemini_cv_generation".toList

/-- The feature name checked by `generate_cover_letter`. -/
def coverLetterFeature : List Char := "gemini_cover_letter_generation".toList

/-- HTTP-level outcomes of a generation endpoint. -/
inductive HttpError where
  | paymentRequired
  | tooManyRequests
  | unprocessableEntity (msg : List Char)
deriving DecidableEq

/-- Instrumented `rate_limiter.check_limit` call. -/
def opCheckLimit (ctx : OrchCtx) (now : Nat) (uid : List Char)
    (tier : Option (List Char)) : (Int × Bool) × OrchCtx :=
  let (r, st) := redisCheckLimit ctx.store now uid tier
  (r, ⟨st, ctx.log ++ [.quotaCheck]⟩)

/-- Instrumented provider call (`gemini_service.generate_*`): the outcome —
a parsed value, or a raised `ValueError` from the HTTP call or from
`_extract_json` — is supplied as data. -/
def opProvider {α : Type} (ctx : OrchCtx) (outcome : Except (List Char) α) :
    Except (List Char) α × OrchCtx :=
  (outcome, ⟨ctx.store, ctx.log ++ [.providerCall]⟩)

/-- Instrumented `rate_limiter.increment` call. -/
def opIncrement (ctx : OrchCtx) (now : Nat) (uid : List Char)
    (tier : Option (List Char)) : Int × OrchCtx :=
  let (n, st) := redisIncrement ctx.store now uid tier
  (n, ⟨st, ctx.log ++ [.quotaIncrement]⟩)

/-- Response payload of `generate_cv`: the CV data and the quota snapshot
`(remaining - 1, total)`. -/
structure CvResponse where
  cvData : Json
  quotaRemaining : Int
  quotaTotal : Int

/-- Model of the `generate_cv` handler after authentication and tier
resolution: premium-feature gate (vacuous under the deployed empty
`PREMIUM_FEATURES`), rate-limit check, provider call, increment only after
a successful generation, response assembly.  `providerOutcome` stands for
`await gemini_service.generate_cv(...)`; a raised `ValueError` there is
mapped to 422 by the handler's `except ValueError` clause. -/
def generateCv (ctx : OrchCtx) (now : Nat) (uid : List Char)
    (tier : Option (List Char)) (hasPremiumAccess : Bool)
    (providerOutcome : Except (List Char) Json) :
    Except HttpError CvResponse × OrchCtx :=
  if cvFeature ∈ premiumFeatures ∧ ¬ hasPremiumAccess then
    (.error .paymentRequired, ctx)
  else
    let ((remaining, limitReached), ctx1) := opCheckLimit ctx now uid tier
    if limitReached then (.error .tooManyRequests, ctx1)
    else
      let (res, ctx2) := opProvider ctx1 providerOutcome
      match res with
      | .error e => (.error (.unprocessableEntity e), ctx2)
      | .ok cvData =>
        let (_, ctx3) := opIncrement ctx2 now uid tier
        (.ok ⟨cvData, remaining - 1, getQuotaForTier tier⟩, ctx3)

/-- Response payload of `generate_cover_letter`. -/
structure CoverLetterResponse where
  coverLetter : List Char
  quotaRemaining : Int
  quotaTotal : Int

/-- Model of the `generate_cover_letter` handler, identical in structure to
`generateCv` but returning the provider's text unchanged. -/
def generateCoverLetter (ctx : OrchCtx) (now : Nat) (uid : List Char)
    (tier : Option (List Char)) (hasPremiumAccess : Bool)
    (providerOutcome : Except (List Char) (List Char)) :
    Except HttpError CoverLetterResponse × OrchCtx :=
  if coverLetterFeature ∈ premiumFeatures ∧ ¬ hasPremiumAccess then
    (.error .paymentRequired, ctx)
  else
    let ((remaining, limitReached), ctx1) := opCheckLimit ctx now uid tier
    if limitReached then (.error .tooManyRequests, ctx1)
    else
      let (res, ctx2) := opProvider ctx1 providerOutcome
      match res with
      | .error e => (.error (.unprocessableEntity e), ctx2)
      | .ok letter =>
        let (_, ctx3) := opIncrement ctx2 now uid tier
        (.ok ⟨letter, remaining - 1, getQuotaForTier tier⟩, ctx3)

/-! ## Subscription reversion (`app/services/user_service.py`) -/

/-- A Firestore field value, as far as the user document needs. -/
inductive FsValue where
  | strVal (s : List Char)
  | boolVal (b : Bool)
  | timeVal (t : Int)
  | intVal (n : Int)
  | mapVal (m : List (List Char × FsValue))

/-- Fetch a top-level document field. -/
def fsGetField (doc : List (List Char × FsValue)) (k : List Char) : Option FsValue :=
  (doc.find? (fun e => e.1 = k)).map Prod.snd

/-- Set one top-level document field, replacing its whole value. -/
def fsSetField (doc : List (List Char × FsValue)) (k : List Char) (v : FsValue) :
    List (List Char × FsValue) :=
  alistSet k v doc

/-- Model of Firestore `DocumentReference.update(payload)`: each top-level
field named in the payload is replaced wholesale by the payload's value
(merging happens only through dotted field paths, which the source does not
use here). -/
def firestoreUpdate (doc : List (List Char × FsValue))
    (payload : List (List Char × FsValue)) : List (List Char × FsValue) :=
  payload.foldl (fun d e => fsSetField d e.1 e.2) doc

/-- The pydantic `UserSubscription` model's declared fields
(`app/schemas/user.py`); `payment_gateway` and `updated_at` are NOT declared
on the model, so those keyword arguments in `revert_user_to_free_tier` are
ignored (pydantic's default `extra` behaviour). -/
structure UserSubscription where
  tier : List Char
  status : List Char
  paystackCustomerId : Option (List Char)
  paystackSubscriptionId : Option (List Char)
  currentPeriodStartsAt : Option Int
  currentPeriodEndsAt : Option Int
  cancellationEffectiveDate : Option Int

/-- Python `model_dump(exclude_none=True)`: declared fields in declaration
order, dropping the `None`-valued ones. -/
def modelDumpExcludeNone (s : UserSubscription) : List (List Char × FsValue) :=
  [("tier".toList, FsValue.strVal s.tier), ("status".toList, FsValue.strVal s.status)]
  ++ (match s.paystackCustomerId with
      | some v => [("paystack_customer_id".toList, FsValue.strVal v)]
      | none => [])
  ++ (match s.paystackSubscriptionId with
      | some v => [("paystack_subscription_id".toList, FsValue.strVal v)]
      | none => [])
  ++ (match s.currentPeriodStartsAt with
      | some v => [("current_period_starts_at".toList, FsValue.timeVal v)]
      | none => [])
  ++ (match s.currentPeriodEndsAt with
      | some v => [("current_period_ends_at".toList, FsValue.timeVal v)]
      | none => [])
  ++ (match s.cancellationEffectiveDate with
      | some v => [("cancellation_effective_date".toList, FsValue.timeVal v)]
      | none => [])

/-- The `UserSubscription(tier="free", status="active", ...None...)` value
built by `revert_user_to_free_tier` (the undeclared `payment_gateway` and
`updated_at` keyword arguments are dropped by pydantic). -/
def freeSubscription : UserSubscription :=
  ⟨"free".toList, "active".toList, none, none, none, none, none⟩

/-- Model of `revert_user_to_free_tier`'s Firestore effect on the user
document: one `update` replacing the `subscription` map by the dumped free
subscription and setting `has_active_subscription` to `False`. -/
def revertUserToFreeTier (doc : List (List Char × FsValue)) :
    List (List Char × FsValue) :=
  firestoreUpdate doc
    [("subscription".toList, FsValue.mapVal (modelDumpExcludeNone freeSubscription)),
     ("has_active_subscription".toList, FsValue.boolVal false)]

/-! ## Spec-side test harness for the extractor round-trip -/

/-- Modelled from the spec: `wrap_in_fences(obj)` with the `json` label, as
used by the round-trip testable property (the serializer/wrapper is test
harness, not repository code). -/
def wrapJsonFence (payload : List Char) : List Char :=
  ("```json\n".toList) ++ payload ++ ("\n```".toList)

/-- Modelled from the spec: `wrap_in_fences(obj)` without a language label. -/
def wrapBareFence (payload : List Char) : List Char :=
  ("```\n".toList) ++ payload ++ ("\n```".toList)

/-- The backquote character, the building block of the fence markers. -/
def backquote : Char := Char.ofNat 96

/-- No character of the payload is a backquote, so the payload cannot fake a
fence marker.  `json.dumps` output contains a backquote exactly when some
string member does (it is never escaped). -/
def backtickFree (l : List Char) : Bool := l.all (fun c => !(c == backquote))

/-- Object whose serialization contains a bare fence marker inside a string
value: `\x7b"a": "\x60\x60\x60"\x7d`. -/
def c9obj : Json := Json.obj [(['a'], Json.str [backquote, backquote, backquote])]

/-! ## Concrete inputs used by the claim analyses -/

/-- Input of the C4 counterexample: two unmatched braces, one unmatched
bracket, `\x7b"a": ["x"], "b": [\x7b"c":`. -/
def c4Input : List Char := "\x7b\"a\": [\"x\"], \"b\": [\x7b\"c\":".toList

/-- Input of the C2 counterexample: balanced braces but invalid JSON, so no
repair branch changes it and the extractor raises. -/
def c2Input : List Char := "\x7b\"a\": \x7d".toList

/-- The spec's concrete truncated-relevance-score input. -/
def c3Input : List Char :=
  "\x7b\"skills\": [\"a\"], \"experience\": [\x7b\"jobTitle\":\"X\",\"relevanceScore\":".toList

/-- A remainder that cannot extend a rendered integer: empty, or headed by a
character that is no digit and none of `.`, `e`, `E`.  Every JSON delimiter
(`,`, `]`, `\x7d`, newline, end of input) qualifies. -/
def numDelim : List Char → Bool
  | [] => true
  | c :: _ => !(c.isDigit || c = '.' || c = 'e' || c = 'E')

/-! ## General lemmas about the store models -/

/-- Reading a key just written returns the written value. -/
theorem find_alistSet_self {α : Type} (k : List Char) (v : α) :
    ∀ d : List (List Char × α),
      ((alistSet k v d).find? (fun e => e.1 = k)).map Prod.snd = some v := by
  intro d
  induction d with
  | nil => simp [alistSet]
  | cons e d ih =>
    by_cases h : e.1 = k
    · simp [alistSet, h]
    · rw [alistSet, if_neg h, List.find?_cons_of_neg _ (by simpa using h)]
      exact ih

/-- Writing one key leaves every other key's reading unchanged. -/
theorem find_alistSet_other {α : Type} (k k2 : List Char) (v : α) (h : ¬ k2 = k) :
    ∀ d : List (List Char × α),
      (alistSet k v d).find? (fun e => e.1 = k2) = d.find? (fun e => e.1 = k2) := by
  intro d
  induction d with
  | nil =>
    show List.find? _ [(k, v)] = List.find? _ []
    rw [List.find?_cons_of_neg _ (by simp; exact fun hh => h hh.symm)]
  | cons e d ih =>
    by_cases he : e.1 = k
    · rw [alistSet, if_pos he,
          List.find?_cons_of_neg _ (by simp; exact fun hh => h hh.symm),
          List.find?_cons_of_neg _ (by simp [he]; exact fun hh => h hh.symm)]
    · by_cases h2 : e.1 = k2
      · rw [alistSet, if_neg he,
            List.find?_cons_of_pos _ (by simp [h2]),
            List.find?_cons_of_pos _ (by simp [h2])]
      · rw [alistSet, if_neg he,
            List.find?_cons_of_neg _ (by simpa using h2),
            List.find?_cons_of_neg _ (by simpa using h2)]
        exact ih

/-! ## Claim C1 — the in-memory fallback limiter -/

/-- Claim C1 (code divergence).  The spec promises that when the shared
(Redis) backend is unavailable the limiter transparently degrades to the
in-process `RateLimiter` and still returns a `(remaining, limit_reached)`
pair, respectively a new count.  The in-process `RateLimiter` class never
assigns a `redis` attribute to its singleton, so `check_limit` and
`increment` always take the fallback branch, which constructs
`RateLimiter()` — the same singleton — and recurses; whatever recursion
depth (`fuel`) Python grants, the call never produces a value (a
`RecursionError` reaches the caller instead of the promised pair/count). -/
theorem local_limiter_never_returns (fuel now : Nat) (uid : List Char)
    (tier : Option (List Char)) :
    localCheckLimit fuel localLimiterSingleton now uid tier = none
    ∧ localIncrement fuel localLimiterSingleton now uid tier = none := by
  induction fuel with
  | zero => exact ⟨rfl, rfl⟩
  | succ f ih => exact ih

/-! ## Claim C5 — tier-to-allowance resolution -/

/-- Claim C5.  Tier resolution is total (the Lean model is a total function,
mirroring a Python expression that cannot raise: `tier.lower().strip()` is
evaluated only under the truthiness guard) and returns the free allowance
exactly when the tier is `None`, empty/whitespace after lower-casing and
trimming, or `"free"` after lower-casing and trimming; every other string —
including composite labels — maps to the premium allowance. -/
theorem tier_resolution_total (tier : Option (List Char)) :
    (getQuotaForTier tier = freeDailyQuota ∨ getQuotaForTier tier = premiumDailyQuota)
    ∧ (getQuotaForTier tier = freeDailyQuota ↔
        (tier = none ∨ ∃ t, tier = some t ∧
          (pyStrip (pyLower t) = [] ∨ pyStrip (pyLower t) = ("free".toList))))
    ∧ getQuotaForTier (some ("premium_monthly".toList)) = premiumDailyQuota
    ∧ getQuotaForTier (some ("pro".toList)) = premiumDailyQuota
    ∧ getQuotaForTier (some ("anything_else".toList)) = premiumDailyQuota
    ∧ getQuotaForTier (some ("FREE".toList)) = freeDailyQuota
    ∧ getQuotaForTier (some []) = freeDailyQuota
    ∧ getQuotaForTier none = freeDailyQuota := by
  refine ⟨?_, ?_, by decide, by decide, by decide, by decide, by decide, rfl⟩
  · cases tier with
    | none => exact Or.inl rfl
    | some t =>
      simp only [getQuotaForTier]
      split_ifs with h
      · exact Or.inr rfl
      · exact Or.inl rfl
  · cases tier with
    | none => simp [getQuotaForTier]
    | some t =>
      simp only [getQuotaForTier]
      split_ifs with h
      · constructor
        · intro he
          exact absurd he (by decide)
        · rintro (hn | ⟨t2, ht2, hc⟩)
          · exact absurd hn (by simp)
          · obtain rfl : t2 = t := by injection ht2.symm
            rcases hc with hc | hc
            · exact absurd hc h.2.2
            · exact absurd hc h.2.1
      · constructor
        · intro _
          right
          refine ⟨t, rfl, ?_⟩
          by_cases hf : pyStrip (pyLower t) = ("free".toList)
          · exact Or.inr hf
          by_cases he2 : pyStrip (pyLower t) = []
          · exact Or.inl he2
          by_cases hne : t.isEmpty
          · obtain rfl : t = [] := by simpa [List.isEmpty_iff] using hne
            exact Or.inl rfl
          · exact absurd ⟨by simpa using hne, hf, he2⟩ h
        · intro _
          rfl

/-! ## Claim C6 — the Redis check is pure and correctly shaped -/

/-- Claim C6.  For every store contents, user, tier and stored daily count,
`RedisRateLimiter.check_limit` returns the pair
`(max 0 (allowance - count), count ≥ allowance)` — the remaining budget
before the current request is counted, never negative — and leaves the
store untouched. -/
theorem redis_check_limit_pure (st : RedisStore) (now : Nat) (uid : List Char)
    (tier : Option (List Char)) :
    (redisCheckLimit st now uid tier).1.1
        = max 0 (getQuotaForTier tier - ((redisGet st (dayKey uid now)).getD 0))
    ∧ 0 ≤ (redisCheckLimit st now uid tier).1.1
    ∧ ((redisCheckLimit st now uid tier).1.2 = true ↔
        getQuotaForTier tier ≤ (redisGet st (dayKey uid now)).getD 0)
    ∧ (redisCheckLimit st now uid tier).2 = st := by
  refine ⟨rfl, le_max_left _ _, ?_, rfl⟩
  simp only [redisCheckLimit, decide_eq_true_eq]
  rw [max_le_iff]
  simp [sub_nonpos]

/-! ## Claim C8 — reverting to free clears the billing fields -/

/-- Claim C8.  After `revert_user_to_free_tier`, whatever the prior document
contents, the stored subscription map is exactly
`\x7b"tier": "free", "status": "active"\x7d`: the update replaces the whole
`subscription` field, so none of the external identifiers
(`paystack_subscription_id`, `paystack_customer_id`, `payment_gateway`),
period bounds or cancellation date survive, and `has_active_subscription`
is `False`. -/
theorem revert_to_free_clears_billing (doc : List (List Char × FsValue)) :
    fsGetField (revertUserToFreeTier doc) ("subscription".toList)
        = some (FsValue.mapVal
            [("tier".toList, FsValue.strVal ("free".toList)),
             ("status".toList, FsValue.strVal ("active".toList))])
    ∧ fsGetField (revertUserToFreeTier doc) ("has_active_subscription".toList)
        = some (FsValue.boolVal false)
    ∧ (∀ k ∈ [("paystack_subscription_id".toList), ("paystack_customer_id".toList),
              ("payment_gateway".toList), ("current_period_starts_at".toList),
              ("current_period_ends_at".toList), ("cancellation_effective_date".toList)],
        (modelDumpExcludeNone freeSubscription).find? (fun e => e.1 = k) = none) := by
  refine ⟨?_, ?_, ?_⟩
  · show fsGetField (fsSetField (fsSetField doc _ _) _ _) _ = _
    rw [fsGetField, fsSetField, fsSetField,
        find_alistSet_other _ _ _ (by decide), find_alistSet_self]
    rfl
  · show fsGetField (fsSetField (fsSetField doc _ _) _ _) _ = _
    rw [fsGetField, fsSetField, find_alistSet_self]
  · intro k hk
    fin_cases hk <;> rfl

/-! ## Claim C7 — check before provider call before increment -/

/-- Claim C7.  Closed-form behaviour of both generation endpoints: the event
log extends by exactly `[check]` when the limit is reached (no provider
call, store untouched, 429 returned), by `[check, provider]` when the
provider or extraction raises (no increment, store untouched, 422), and by
`[check, provider, increment]` — in that order — on success, with the
counter incremented; so the check strictly precedes the provider call, the
increment strictly follows a successful call, and failed generations
consume no quota. -/
theorem generation_event_order (ctx : OrchCtx) (now : Nat) (uid : List Char)
    (tier : Option (List Char)) (access : Bool)
    (provCv : Except (List Char) Json)
    (provLetter : Except (List Char) (List Char)) :
    ((generateCv ctx now uid tier access provCv).2.log =
        ctx.log ++
          (if (redisCheckLimit ctx.store now uid tier).1.2 then [GenEvent.quotaCheck]
           else
             match provCv with
             | .error _ => [GenEvent.quotaCheck, GenEvent.providerCall]
             | .ok _ => [GenEvent.quotaCheck, GenEvent.providerCall, GenEvent.quotaIncrement])
     ∧ (generateCv ctx now uid tier access provCv).2.store =
        (if (redisCheckLimit ctx.store now uid tier).1.2 then ctx.store
         else
           match provCv with
           | .error _ => ctx.store
           | .ok _ => (redisIncrement ctx.store now uid tier).2)
     ∧ (generateCv ctx now uid tier access provCv).1 =
        (if (redisCheckLimit ctx.store now uid tier).1.2 then .error .tooManyRequests
         else
           match provCv with
           | .error e => .error (.unprocessableEntity e)
           | .ok cv => .ok ⟨cv, (redisCheckLimit ctx.store now uid tier).1.1 - 1,
                            getQuotaForTier tier⟩))
    ∧ ((generateCoverLetter ctx now uid tier access provLetter).2.log =
        ctx.log ++
          (if (redisCheckLimit ctx.store now uid tier).1.2 then [GenEvent.quotaCheck]
           else
             match provLetter with
             | .error _ => [GenEvent.quotaCheck, GenEvent.providerCall]
             | .ok _ => [GenEvent.quotaCheck, GenEvent.providerCall, GenEvent.quotaIncrement])
     ∧ (generateCoverLetter ctx now uid tier access provLetter).2.store =
        (if (redisCheckLimit ctx.store now uid tier).1.2 then ctx.store
         else
           match provLetter with
           | .error _ => ctx.store
           | .ok _ => (redisIncrement ctx.store now uid tier).2)
     ∧ (generateCoverLetter ctx now uid tier access provLetter).1 =
        (if (redisCheckLimit ctx.store now uid tier).1.2 then .error .tooManyRequests
         else
           match provLetter with
           | .error e => .error (.unprocessableEntity e)
           | .ok letter => .ok ⟨letter, (redisCheckLimit ctx.store now uid tier).1.1 - 1,
                                getQuotaForTier tier⟩)) := by
  constructor
  · simp only [generateCv, premiumFeatures, List.not_mem_nil, false_and, if_false,
               opCheckLimit, opProvider, opIncrement, redisCheckLimit]
    cases provCv <;> split_ifs <;> simp_all [redisIncrement]
  · simp only [generateCoverLetter, premiumFeatures, List.not_mem_nil, false_and, if_false,
               opCheckLimit, opProvider, opIncrement, redisCheckLimit]
    cases provLetter <;> split_ifs <;> simp_all [redisIncrement]

/-! ## Lemmas about the repair pipeline (for claims C2, C3, C4, C10) -/

/-- dropWhile distributes over an append whose last element is kept. -/
theorem dropWhile_append_single {p : Char → Bool} {a : Char} (ha : p a = false) :
    ∀ xs : List Char, (xs ++ [a]).dropWhile p = xs.dropWhile p ++ [a] := by
  intro xs
  induction xs with
  | nil => simp [List.dropWhile_cons, ha]
  | cons x xs ih =>
    simp only [List.cons_append, List.dropWhile_cons]
    by_cases hx : p x
    · simp [hx, ih]
    · simp [hx]

/-- Python `rstrip(",")` keeps a non-comma head in place. -/
theorem rstripCommas_cons {a : Char} (ha : ¬ a = ',') (l : List Char) :
    rstripCommas (a :: l) = a :: rstripCommas l := by
  unfold rstripCommas
  rw [List.reverse_cons, dropWhile_append_single (by simpa using ha)]
  simp

/-- Splitting on newlines never yields an empty list of lines. -/
theorem splitOnNl_ne_nil : ∀ l : List Char, splitOnNl l ≠ [] := by
  intro l
  cases l with
  | nil => simp [splitOnNl]
  | cons c r =>
    simp only [splitOnNl]
    split_ifs
    · simp
    · cases h : splitOnNl r <;> simp

/-- The line rewritten by one scan step is the line itself or its
comma-stripped form. -/
theorem scanLine_snd (st : ScanState) (l : List Char) :
    (scanLine st l).2 = l ∨ (scanLine st l).2 = rstripCommas l := by
  simp only [scanLine]
  split_ifs
  · exact Or.inr rfl
  · exact Or.inl rfl

/-- A scan step keeps a non-comma head character in place. -/
theorem scanLine_snd_head {st : ScanState} {a : Char} (ha : ¬ a = ',') (l : List Char) :
    ((scanLine st (a :: l)).2).head? = some a := by
  rcases scanLine_snd st (a :: l) with h | h <;> rw [h]
  · rfl
  · rw [rstripCommas_cons ha]
    rfl

/-- The scanned lines are the image of the input lines, one by one. -/
theorem scanLines_snd_cons (st : ScanState) (l : List Char) (ls : List (List Char)) :
    (scanLines st (l :: ls)).2
      = (scanLine st l).2 :: (scanLines (scanLine st l).1 ls).2 := rfl

/-- Joining a nonempty first line keeps its head character. -/
theorem joinNl_head {l : List Char} (ls : List (List Char)) (h : l ≠ []) :
    (joinNl (l :: ls)).head? = l.head? := by
  cases ls with
  | nil => rfl
  | cons l2 ls2 =>
    show (l ++ '\n' :: joinNl (l2 :: ls2)).head? = l.head?
    exact List.head?_append_of_ne_nil _ h

/-- The content selected by the repair helper always starts with `\x7b`. -/
theorem repairContent_head (text : List Char) :
    (repairContent text).head? = some lb := by
  unfold repairContent
  split_ifs with h
  · exact h
  · split
    · rfl
    · rfl

/-- The scan additions preserve an opening-brace head. -/
theorem scanAppend_head (st : ScanState) {c : List Char} (h : c.head? = some lb) :
    (scanAppend st c).head? = some lb := by
  have hne : c ≠ [] := by
    intro he
    rw [he] at h
    simp at h
  unfold scanAppend
  split_ifs with h1 h2 h3
  · rw [List.head?_append_of_ne_nil _ (by simp [hne]),
        List.head?_append_of_ne_nil _ hne]
    exact h
  · rw [List.head?_append_of_ne_nil _ hne]
    exact h
  · rw [List.head?_append_of_ne_nil _ hne]
    exact h
  · exact h

/-- The cleaned, re-joined content keeps its opening-brace head. -/
theorem repairScanned_head {content : List Char} (h : content.head? = some lb) :
    (repairScanned content).head? = some lb := by
  match content, h with
  | c :: r, h =>
    have hc2 : c = lb := by simpa using h
    subst hc2
    obtain ⟨l0, ls, hle⟩ : ∃ l0 ls, splitOnNl (lb :: r) = (lb :: l0) :: ls := by
      simp only [splitOnNl]
      rw [if_neg (by decide)]
      cases hr : splitOnNl r with
      | nil => exact absurd hr (splitOnNl_ne_nil r)
      | cons l0 ls => exact ⟨l0, ls, rfl⟩
    have hhead : ((scanLine scanInit (lb :: l0)).2).head? = some lb :=
      scanLine_snd_head (by decide) l0
    have hne : (scanLine scanInit (lb :: l0)).2 ≠ [] := by
      intro he
      rw [he] at hhead
      simp at hhead
    unfold repairScanned
    rw [hle, scanLines_snd_cons]
    exact scanAppend_head _ (by rw [joinNl_head _ hne]; exact hhead)

/-- Structure completion preserves an opening-brace head. -/
theorem repairClose_head {content : List Char} (h : content.head? = some lb) :
    (repairClose content).head? = some lb := by
  unfold repairClose
  split_ifs with hc
  · have hs := repairScanned_head h
    have hsn : repairScanned content ≠ [] := by
      intro he
      rw [he] at hs
      simp at hs
    rw [List.append_assoc, List.head?_append_of_ne_nil _ hsn]
    exact hs
  · exact h

/-- The pre-validation repair result always starts with `\x7b`. -/
theorem repairCore_head (text : List Char) :
    (repairCore text).head? = some lb := by
  have h := repairClose_head (repairContent_head text)
  have hne : repairClose (repairContent text) ≠ [] := by
    intro he
    rw [he] at h
    simp at h
  show (if endsWith [rb] (repairClose (repairContent text)) = true
        then repairClose (repairContent text)
        else repairClose (repairContent text) ++ [rb]).head? = some lb
  split_ifs
  · exact h
  · rw [List.head?_append_of_ne_nil _ hne]
    exact h

/-- The pre-validation repair result always ends with `\x7d`. -/
theorem repairCore_last (text : List Char) :
    (repairCore text).getLast? = some rb := by
  show (if endsWith [rb] (repairClose (repairContent text)) = true
        then repairClose (repairContent text)
        else repairClose (repairContent text) ++ [rb]).getLast? = some rb
  split_ifs with h
  · obtain ⟨pre, hpre⟩ : ∃ pre, repairClose (repairContent text) = pre ++ [rb] := by
      unfold endsWith at h
      obtain ⟨pre, hp⟩ := List.isSuffixOf_iff_suffix.mp h
      exact ⟨pre, hp.symm⟩
    rw [hpre, List.getLast?_concat]
  · rw [List.getLast?_concat]

/-- Decomposition of a successful `,\s*X` lookahead: the consumed span is a
whitespace run followed by the closer. -/
theorem matchCommaWsAt_decomp {close : Char} :
    ∀ {l l2 : List Char}, matchCommaWsAt close l = some l2 →
      ∃ w, (∀ c ∈ w, isReWs c = true) ∧ l = w ++ close :: l2 := by
  intro l
  induction l with
  | nil => intro l2 h; simp [matchCommaWsAt] at h
  | cons c r ih =>
    intro l2 h
    simp only [matchCommaWsAt] at h
    split_ifs at h with h1 h2
    · obtain ⟨w, hw, rfl⟩ := ih h
      refine ⟨c :: w, ?_, by simp⟩
      intro x hx
      rcases List.mem_cons.mp hx with rfl | hx
      · exact h1
      · exact hw x hx
    · cases h
      exact ⟨[], by simp, by simp [h2]⟩

/-- A cons with a nonempty tail has the tail's last element. -/
theorem getLast?_cons_ne_nil {a : Char} {l : List Char} (h : l ≠ []) :
    (a :: l).getLast? = l.getLast? := by
  show ([a] ++ l).getLast? = l.getLast?
  exact List.getLast?_append_of_ne_nil _ h

/-- The trailing-comma cleanup scan preserves a final `\x7d`, whatever
adequate fuel it runs on. -/
theorem subCommaWsAux_getLast (close : Char) :
    ∀ (fuel : Nat) (l : List Char), l.length ≤ fuel → l.getLast? = some rb →
      (subCommaWsAux close fuel l).getLast? = some rb := by
  intro fuel
  induction fuel with
  | zero =>
    intro l hl h
    match l with
    | [] => simp at h
  | succ fuel ih =>
    intro l hl h
    match l with
    | [] => simp at h
    | c :: r =>
      simp only [subCommaWsAux]
      by_cases hc : c = ','
      · rw [if_pos hc]
        cases hm : matchCommaWsAt close r with
        | some r2 =>
          obtain ⟨w, _, hre⟩ := matchCommaWsAt_decomp hm
          by_cases hr2 : r2 = []
          · subst hr2
            have hcl : close = rb := by
              have hgl : (c :: r).getLast? = some close := by
                rw [hre, show (c :: (w ++ close :: [])) = (c :: w) ++ [close] by simp,
                    List.getLast?_concat]
              rw [hgl] at h
              exact Option.some_inj.mp h
            subst hcl
            show (rb :: subCommaWsAux rb fuel []).getLast? = some rb
            rw [show subCommaWsAux rb fuel [] = [] from by cases fuel <;> rfl]
            rfl
          · have hlast : r2.getLast? = some rb := by
              have hgl : (c :: r).getLast? = r2.getLast? := by
                rw [hre, show (c :: (w ++ close :: r2)) = ((c :: w) ++ [close]) ++ r2 by simp,
                    List.getLast?_append_of_ne_nil _ hr2]
              rw [hgl] at h
              exact h
            have hfuel : r2.length ≤ fuel := by
              have : r.length = w.length + 1 + r2.length := by simp [hre]; omega
              simp only [List.length_cons] at hl
              omega
            have hx := ih r2 hfuel hlast
            have hne : subCommaWsAux close fuel r2 ≠ [] := by
              intro he
              rw [he] at hx
              simp at hx
            rw [getLast?_cons_ne_nil hne]
            exact hx
        | none =>
          have hr : r ≠ [] := by
            intro he
            subst he
            simp only [List.getLast?_singleton] at h
            exact absurd (Option.some_inj.mp h) (by rw [hc]; decide)
          have hlast : r.getLast? = some rb := by
            rw [getLast?_cons_ne_nil hr] at h
            exact h
          have hfuel : r.length ≤ fuel := by
            simp only [List.length_cons] at hl
            omega
          have hx := ih r hfuel hlast
          have hne : subCommaWsAux close fuel r ≠ [] := by
            intro he
            rw [he] at hx
            simp at hx
          rw [getLast?_cons_ne_nil hne]
          exact hx
      · rw [if_neg hc]
        by_cases hr : r = []
        · subst hr
          simp only [List.getLast?_singleton] at h
          show (c :: subCommaWsAux close fuel []).getLast? = some rb
          rw [show subCommaWsAux close fuel [] = [] from by cases fuel <;> rfl]
          simpa using h
        · have hlast : r.getLast? = some rb := by
            rw [getLast?_cons_ne_nil hr] at h
            exact h
          have hfuel : r.length ≤ fuel := by
            simp only [List.length_cons] at hl
            omega
          have hx := ih r hfuel hlast
          have hne : subCommaWsAux close fuel r ≠ [] := by
            intro he
            rw [he] at hx
            simp at hx
          rw [getLast?_cons_ne_nil hne]
          exact hx

/-- The trailing-comma cleanup preserves a final `\x7d`. -/
theorem subCommaWs_getLast (close : Char) (l : List Char)
    (h : l.getLast? = some rb) : (subCommaWs close l).getLast? = some rb :=
  subCommaWsAux_getLast close l.length l le_rfl h

/-- The trailing-comma cleanup keeps a non-comma head character. -/
theorem subCommaWs_head (close : Char) {l : List Char} (h : l.head? = some lb) :
    (subCommaWs close l).head? = some lb := by
  match l, h with
  | c :: r, h =>
    have hc : c = lb := by simpa using h
    subst hc
    show (subCommaWsAux close (r.length + 1) (lb :: r)).head? = some lb
    simp only [subCommaWsAux]
    rw [if_neg (by decide)]
    rfl

/-! ## Claim C10 — the repair helper always yields a braced string -/

/-- Claim C10.  For every input, the repair helper's pre-validation content
starts with `\x7b` and ends with `\x7d`, so the validation branch that would
return the minimal fallback object is never taken: the result is always the
cleanup of the completed content (first conjunct), and it starts with `\x7b`
and ends with `\x7d` (remaining conjuncts). -/
theorem repair_result_is_object (text : List Char) :
    repairTruncatedJson text = subCommaWs rsq (subCommaWs rb (repairCore text))
    ∧ (repairTruncatedJson text).head? = some lb
    ∧ (repairTruncatedJson text).getLast? = some rb := by
  have hmain : repairTruncatedJson text
      = subCommaWs rsq (subCommaWs rb (repairCore text)) := by
    unfold repairTruncatedJson
    rw [if_pos ⟨repairCore_head text, repairCore_last text⟩]
  refine ⟨hmain, ?_, ?_⟩
  · rw [hmain]
    exact subCommaWs_head _ (subCommaWs_head _ (repairCore_head text))
  · rw [hmain]
    exact subCommaWs_getLast _ _ (subCommaWs_getLast _ _ (repairCore_last text))

/-! ## Claim C4 — order of the appended closers -/

/-- Counterexample to claim C4 as stated.  On `c4Input` the unmatched counts
are 2 braces and 1 bracket, yet the repaired string is the input followed by
`\x7d\x7d]\x7d` — the claimed bracket-then-brace closing run `]\x7d\x7d` is
not a suffix of the result (the source appends braces first, then brackets,
then one more brace because the string now ends with `]`). -/
theorem repair_close_order_counterexample :
    braceCount (repairContent c4Input) = 2
    ∧ bracketCount (repairContent c4Input) = 1
    ∧ repairTruncatedJson c4Input = c4Input ++ ("\x7d\x7d]\x7d".toList)
    ∧ ¬ (("]\x7d\x7d".toList) <:+ repairTruncatedJson c4Input) :=
  ⟨by decide, by decide, by rfl, by decide⟩

/-- Claim C4 as amended.  Whenever unmatched braces or brackets exist, the
structure-completion step appends, after the cleaned lines and the optional
scan additions, first all missing `\x7d` (one per unmatched `\x7b`) and then
all missing `]` (one per unmatched `[`) — brace-then-bracket order, the
reverse of the claimed order; the final result is the trailing-comma cleanup
of that string, extended by one extra `\x7d` when it does not already end
with `\x7d`. -/
theorem repair_close_order (text : List Char)
    (h : 0 < braceCount (repairContent text) ∨ 0 < bracketCount (repairContent text)) :
    repairClose (repairContent text)
      = repairScanned (repairContent text)
        ++ repeatChar rb (braceCount (repairContent text))
        ++ repeatChar rsq (bracketCount (repairContent text))
    ∧ repairTruncatedJson text = subCommaWs rsq (subCommaWs rb
        (if endsWith [rb] (repairClose (repairContent text))
         then repairClose (repairContent text)
         else repairClose (repairContent text) ++ [rb])) := by
  constructor
  · unfold repairClose
    rw [if_pos h]
  · unfold repairTruncatedJson
    rw [if_pos ⟨repairCore_head text, repairCore_last text⟩]
    rfl

/-- Witness for the amended C4 at the concrete counterexample input. -/
theorem repair_close_order_witness :
    repairClose (repairContent c4Input)
      = repairScanned (repairContent c4Input)
        ++ repeatChar rb (braceCount (repairContent c4Input))
        ++ repeatChar rsq (bracketCount (repairContent c4Input)) :=
  (repair_close_order c4Input (by decide)).1

/-! ## Claim C2 — extraction: parsed object or raised error -/

/-- Counterexample to claim C2 as stated: on `c2Input` the extractor neither
returns a parsed object nor the minimal fallback object — it raises a
`ValueError` (the `error` branch). -/
theorem extract_raises_counterexample :
    extractJson c2Input = Except.error extractErr := by rfl

/-- Claim C2 as amended.  For every input, extraction either returns some
successfully parsed object, or raises `ValueError` — and it raises exactly
when even the aggressively repaired text fails to parse; the minimal
fallback object is not what reaches the caller on the failure path. -/
theorem extract_total_or_raises (text : List Char) :
    (∃ v, extractJson text = .ok v)
    ∨ (extractJson text = .error extractErr
        ∧ jsonLoads (repairTruncatedJson text) = none) := by
  unfold extractJson
  cases extractTry text with
  | some v => exact Or.inl ⟨v, rfl⟩
  | none =>
    cases hr : jsonLoads (repairTruncatedJson text) with
    | some v => exact Or.inl ⟨v, rfl⟩
    | none => exact Or.inr ⟨rfl, rfl⟩

/-! ## Claim C3 — the truncated relevance-score scenario -/

/-- Claim C3 (code divergence).  On the spec's concrete input the repair
helper produces `...\"relevanceScore\":\x7d\x7d]\x7d` — `re.search` takes
the FIRST property name of the single line (`skills`, not
`relevanceScore`), so no default score is inserted, and the closers are
appended braces-first — which does not parse, so the extractor raises
`ValueError` instead of returning an object with the sentinel score. -/
theorem truncated_relevance_score_raises :
    repairTruncatedJson c3Input = c3Input ++ ("\x7d\x7d]\x7d".toList)
    ∧ jsonLoads (repairTruncatedJson c3Input) = none
    ∧ extractJson c3Input = Except.error extractErr :=
  ⟨by rfl, by rfl, by rfl⟩

/-! ## Claim C9, part 1: number and string codec lemmas -/

/-- A decimal digit character carries its value and is a digit. -/
theorem digit_spec : ∀ n < 10, (Char.ofNat (48 + n)).isDigit = true
    ∧ (Char.ofNat (48 + n)).toNat - 48 = n
    ∧ ¬ (Char.ofNat (48 + n)) = '-' := by decide

/-- The digit renderer is nonempty, all digits, keeps a nonzero leading
digit, and its digits fold back to the value, for every adequate fuel. -/
theorem natDigitsAux_spec : ∀ (fuel n : Nat), n < fuel →
    (natDigitsAux fuel n ≠ []
     ∧ (∀ c ∈ natDigitsAux fuel n, c.isDigit = true)
     ∧ (1 ≤ n → ¬ (natDigitsAux fuel n).head? = some '0')
     ∧ digitsVal (natDigitsAux fuel n) = n) := by
  intro fuel
  induction fuel with
  | zero => intro n hn; omega
  | succ fuel ih =>
    intro n hn
    by_cases h10 : n < 10
    · refine ⟨by simp [natDigitsAux, h10], ?_, ?_, ?_⟩
      · intro c hc
        simp only [natDigitsAux, if_pos h10, List.mem_singleton] at hc
        subst hc
        exact (digit_spec n h10).1
      · intro h1 hc
        simp only [natDigitsAux, if_pos h10, List.head?_cons] at hc
        have heq := Option.some_inj.mp hc
        have h2 := (digit_spec n h10).2.1
        rw [heq] at h2
        rw [show ('0').toNat = 48 from by decide] at h2
        omega
      · simp only [natDigitsAux, if_pos h10, digitsVal, List.foldl_cons, List.foldl_nil]
        have h2 := (digit_spec n h10).2.1
        omega
    · have hrec : n / 10 < fuel := by omega
      obtain ⟨hne, hdig, hhead, hval⟩ := ih (n / 10) hrec
      have hstep : natDigitsAux (fuel + 1) n
          = natDigitsAux fuel (n / 10) ++ [Char.ofNat (48 + n % 10)] := by
        simp [natDigitsAux, h10]
      refine ⟨by simp [hstep], ?_, ?_, ?_⟩
      · intro c hc
        rw [hstep, List.mem_append] at hc
        rcases hc with hc | hc
        · exact hdig c hc
        · rw [List.mem_singleton] at hc
          subst hc
          exact (digit_spec (n % 10) (by omega)).1
      · intro _ hc
        rw [hstep, List.head?_append_of_ne_nil _ hne] at hc
        exact hhead (by omega) hc
      · rw [hstep]
        unfold digitsVal
        rw [List.foldl_append]
        have hdv : (Char.ofNat (48 + n % 10)).toNat - 48 = n % 10 :=
          (digit_spec (n % 10) (by omega)).2.1
        simp only [List.foldl_cons, List.foldl_nil]
        unfold digitsVal at hval
        rw [hval]
        omega

/-- Every character of a rendered natural number is a digit. -/
theorem natDigits_digits (n : Nat) : ∀ c ∈ natDigits n, c.isDigit = true :=
  (natDigitsAux_spec (n + 1) n (by omega)).2.1

/-- A rendered natural number is nonempty. -/
theorem natDigits_ne_nil (n : Nat) : natDigits n ≠ [] :=
  (natDigitsAux_spec (n + 1) n (by omega)).1

/-- The digits of a rendered natural number fold back to it. -/
theorem digitsVal_natDigits (n : Nat) : digitsVal (natDigits n) = n :=
  (natDigitsAux_spec (n + 1) n (by omega)).2.2.2

/-- A rendered positive number does not start with a zero digit. -/
theorem natDigits_head_ne_zero {n : Nat} (h : 1 ≤ n) :
    ¬ (natDigits n).head? = some '0' :=
  (natDigitsAux_spec (n + 1) n (by omega)).2.2.1 h

/-- takeWhile/dropWhile on a satisfying run followed by a blocked remainder. -/
theorem takeWhile_dropWhile_append {p : Char → Bool} :
    ∀ (ds rest : List Char), (∀ c ∈ ds, p c = true) →
      (∀ c, rest.head? = some c → p c = false) →
      (ds ++ rest).takeWhile p = ds ∧ (ds ++ rest).dropWhile p = rest := by
  intro ds
  induction ds with
  | nil =>
    intro rest _ hrest
    cases rest with
    | nil => exact ⟨rfl, rfl⟩
    | cons c r =>
      have := hrest c rfl
      simp [List.takeWhile_cons, List.dropWhile_cons, this]
  | cons d ds ih =>
    intro rest hds hrest
    have hd : p d = true := hds d (by simp)
    obtain ⟨ht, hw⟩ := ih rest (fun c hc => hds c (by simp [hc])) hrest
    simp [List.takeWhile_cons, List.dropWhile_cons, hd, ht, hw]

/-- The head of a blocked-by-`numDelim` remainder is not a digit. -/
theorem numDelim_head {rest : List Char} (h : numDelim rest = true) :
    ∀ c, rest.head? = some c →
      c.isDigit = false ∧ ¬ c = '.' ∧ ¬ c = 'e' ∧ ¬ c = 'E' := by
  intro c hc
  cases rest with
  | nil => cases hc
  | cons c2 r =>
    obtain rfl : c2 = c := Option.some_inj.mp hc
    simp only [numDelim, Bool.not_eq_true', Bool.or_eq_false_iff,
               decide_eq_false_iff_not] at h
    exact ⟨h.1.1.1, h.1.1.2, h.1.2, h.2⟩

/-- Parsing a rendered natural number recovers it, for every remainder that
cannot extend it. -/
theorem parseNatPart_natDigits (n : Nat) (rest : List Char)
    (hr : numDelim rest = true) :
    parseNatPart (natDigits n ++ rest) = some (n, rest) := by
  obtain ⟨ht, hw⟩ := takeWhile_dropWhile_append (natDigits n) rest
    (natDigits_digits n) (fun c hc => ((numDelim_head hr) c hc).1)
  unfold parseNatPart
  rw [ht, hw]
  rw [if_neg (by simp [natDigits_ne_nil n])]
  have hlead : ¬ (1 < (natDigits n).length ∧ (natDigits n).head? = some '0') := by
    by_cases h10 : n < 10
    · intro hcon
      have hsing : natDigits n = [Char.ofNat (48 + n)] := by
        unfold natDigits natDigitsAux
        simp [h10]
      rw [hsing] at hcon
      simp at hcon
    · intro hcon
      exact natDigits_head_ne_zero (by omega) hcon.2
  rw [if_neg hlead]
  have hfloat : floatStart rest = false := by
    cases rest with
    | nil => rfl
    | cons c r =>
      obtain ⟨_, hdot, he, hE⟩ := numDelim_head hr c rfl
      simp [floatStart, hdot, he, hE]
  rw [if_neg (by simp [hfloat]), digitsVal_natDigits]

/-- A rendered natural number starts with a digit. -/
theorem natDigits_cons (n : Nat) :
    ∃ c t, natDigits n = c :: t ∧ c.isDigit = true := by
  cases h : natDigits n with
  | nil => exact absurd h (natDigits_ne_nil n)
  | cons c t =>
    exact ⟨c, t, rfl, natDigits_digits n c (h ▸ List.mem_cons_self c t)⟩

/-- Digit characters are not signs. -/
theorem digit_ne_minus {c : Char} (h : c.isDigit = true) : ¬ c = '-' := by
  intro hh
  rw [hh] at h
  exact absurd h (by decide)

/-- Parsing a rendered integer recovers it, for every remainder that cannot
extend it. -/
theorem parseNum_intChars (i : Int) (rest : List Char) (hr : numDelim rest = true) :
    parseNum (intChars i ++ rest) = some (i, rest) := by
  by_cases hi : i < 0
  · have harg : intChars i ++ rest = '-' :: (natDigits i.natAbs ++ rest) := by
      simp [intChars, hi]
    rw [harg]
    unfold parseNum
    rw [if_pos (by simp), show ('-' :: (natDigits i.natAbs ++ rest)).tail
        = natDigits i.natAbs ++ rest from rfl,
        parseNatPart_natDigits i.natAbs rest hr]
    show some (-(i.natAbs : Int), rest) = some (i, rest)
    rw [show -((i.natAbs : Nat) : Int) = i from by omega]
  · obtain ⟨c, t, hct, hdc⟩ := natDigits_cons i.natAbs
    have harg : intChars i ++ rest = c :: (t ++ rest) := by
      simp [intChars, hi, hct]
    rw [harg]
    unfold parseNum
    rw [if_neg (by simp; exact fun hh => digit_ne_minus hdc hh)]
    have hp : parseNatPart (c :: (t ++ rest)) = some (i.natAbs, rest) := by
      have hres := parseNatPart_natDigits i.natAbs rest hr
      rwa [hct, List.cons_append] at hres
    rw [hp]
    show some ((i.natAbs : Int), rest) = some (i, rest)
    rw [show ((i.natAbs : Nat) : Int) = i from by omega]

/-- Hexadecimal digits round-trip. -/
theorem hexVal_hexDig : ∀ k < 16, hexVal (hexDig k) = some k := by decide

/-- One-step unfolding of the string-body parser on a cons cell. -/
theorem parseStrBody_cons (c : Char) (cs : List Char) :
    parseStrBody (c :: cs)
      = (if c = dq then some ([], cs)
         else if c = bs then
           (match cs with
            | [] => none
            | e :: r2 =>
              if e = 'u' then
                match r2 with
                | a :: b :: c3 :: d :: r3 =>
                  match hex4 a b c3 d with
                  | some n =>
                    if 55296 ≤ n ∧ n ≤ 57343 then none
                    else (parseStrBody r3).map (fun p => (Char.ofNat n :: p.1, p.2))
                  | none => none
                | _ => none
              else
                match unescChar e with
                | some ch => (parseStrBody r2).map (fun p => (ch :: p.1, p.2))
                | none => none)
         else if c.toNat < 32 then none
         else (parseStrBody cs).map (fun p => (c :: p.1, p.2))) := by
  rw [parseStrBody.eq_def]

/-- Parsing one escaped character undoes the escape. -/
theorem parseStrBody_escChar (c : Char) (r : List Char) :
    parseStrBody (escChar c ++ r)
      = (parseStrBody r).map (fun p => (c :: p.1, p.2)) := by
  unfold escChar
  split_ifs with h1 h2 h3 h4 h5 h6 h7 h8
  · subst h1
    rw [show ([bs, dq] ++ r) = bs :: dq :: r from rfl, parseStrBody_cons,
        if_neg (show ¬ bs = dq by decide), if_pos rfl]
    show (match unescChar dq with
          | some ch => (parseStrBody r).map (fun (p : List Char × List Char) => (ch :: p.1, p.2))
          | none => none) = _
    rw [show unescChar dq = some dq from by decide]
  · subst h2
    rw [show ([bs, bs] ++ r) = bs :: bs :: r from rfl, parseStrBody_cons,
        if_neg (show ¬ bs = dq by decide), if_pos rfl]
    show (match unescChar bs with
          | some ch => (parseStrBody r).map (fun (p : List Char × List Char) => (ch :: p.1, p.2))
          | none => none) = _
    rw [show unescChar bs = some bs from by decide]
  · subst h3
    rw [show ([bs, 'n'] ++ r) = bs :: 'n' :: r from rfl, parseStrBody_cons,
        if_neg (show ¬ bs = dq by decide), if_pos rfl]
    show (match unescChar 'n' with
          | some ch => (parseStrBody r).map (fun (p : List Char × List Char) => (ch :: p.1, p.2))
          | none => none) = _
    rw [show unescChar 'n' = some '\n' from by decide]
  · subst h4
    rw [show ([bs, 'r'] ++ r) = bs :: 'r' :: r from rfl, parseStrBody_cons,
        if_neg (show ¬ bs = dq by decide), if_pos rfl]
    show (match unescChar 'r' with
          | some ch => (parseStrBody r).map (fun (p : List Char × List Char) => (ch :: p.1, p.2))
          | none => none) = _
    rw [show unescChar 'r' = some '\r' from by decide]
  · subst h5
    rw [show ([bs, 't'] ++ r) = bs :: 't' :: r from rfl, parseStrBody_cons,
        if_neg (show ¬ bs = dq by decide), if_pos rfl]
    show (match unescChar 't' with
          | some ch => (parseStrBody r).map (fun (p : List Char × List Char) => (ch :: p.1, p.2))
          | none => none) = _
    rw [show unescChar 't' = some '\t' from by decide]
  · subst h6
    rw [show ([bs, 'b'] ++ r) = bs :: 'b' :: r from rfl, parseStrBody_cons,
        if_neg (show ¬ bs = dq by decide), if_pos rfl]
    show (match unescChar 'b' with
          | some ch => (parseStrBody r).map (fun (p : List Char × List Char) => (ch :: p.1, p.2))
          | none => none) = _
    rw [show unescChar 'b' = some '\x08' from by decide]
  · subst h7
    rw [show ([bs, 'f'] ++ r) = bs :: 'f' :: r from rfl, parseStrBody_cons,
        if_neg (show ¬ bs = dq by decide), if_pos rfl]
    show (match unescChar 'f' with
          | some ch => (parseStrBody r).map (fun (p : List Char × List Char) => (ch :: p.1, p.2))
          | none => none) = _
    rw [show unescChar 'f' = some '\x0c' from by decide]
  · rw [show ((bs :: 'u' :: '0' :: '0' :: hexDig (c.toNat / 16) :: [hexDig (c.toNat % 16)]) ++ r)
        = bs :: 'u' :: '0' :: '0' :: hexDig (c.toNat / 16) :: hexDig (c.toNat % 16) :: r from rfl,
        parseStrBody_cons, if_neg (show ¬ bs = dq by decide), if_pos rfl]
    show (match hex4 '0' '0' (hexDig (c.toNat / 16)) (hexDig (c.toNat % 16)) with
          | some n =>
            if 55296 ≤ n ∧ n ≤ 57343 then none
            else (parseStrBody r).map (fun (p : List Char × List Char) => (Char.ofNat n :: p.1, p.2))
          | none => none) = _
    have hv : hex4 '0' '0' (hexDig (c.toNat / 16)) (hexDig (c.toNat % 16)) = some c.toNat := by
      unfold hex4
      rw [show hexVal '0' = some 0 from by decide,
          hexVal_hexDig _ (show c.toNat / 16 < 16 by omega),
          hexVal_hexDig _ (show c.toNat % 16 < 16 by omega)]
      show some (((0 * 16 + 0) * 16 + c.toNat / 16) * 16 + c.toNat % 16) = some c.toNat
      congr 1
      omega
    rw [hv]
    show (if 55296 ≤ c.toNat ∧ c.toNat ≤ 57343 then none
          else (parseStrBody r).map (fun p => (Char.ofNat c.toNat :: p.1, p.2))) = _
    rw [if_neg (by omega)]
    simp only [Char.ofNat_toNat]
  · rw [show ([c] ++ r) = c :: r from rfl, parseStrBody_cons,
        if_neg h1, if_neg h2, if_neg h8]

/-- Parsing a whole escaped string body stops exactly at the closing quote. -/
theorem parseStrBody_escStr (s : List Char) :
    ∀ rest, parseStrBody (escStr s ++ dq :: rest) = some (s, rest) := by
  induction s with
  | nil =>
    intro rest
    show parseStrBody (dq :: rest) = some ([], rest)
    rw [parseStrBody_cons, if_pos rfl]
  | cons c s ih =>
    intro rest
    show parseStrBody ((escChar c ++ escStr s) ++ dq :: rest) = _
    rw [List.append_assoc, parseStrBody_escChar, ih rest]
    rfl

end JobHunter

namespace JobHunter

theorem parseVal_succ (fuel : Nat) (cs : List Char) :
    parseVal (fuel + 1) cs
      = (match skipWs cs with
         | [] => none
         | c :: r =>
           if c = 'n' then
             match r with
             | 'u' :: 'l' :: 'l' :: r2 => some (.null, r2)
             | _ => none
           else if c = 't' then
             match r with
             | 'r' :: 'u' :: 'e' :: r2 => some (.bool true, r2)
             | _ => none
           else if c = 'f' then
             match r with
             | 'a' :: 'l' :: 's' :: 'e' :: r2 => some (.bool false, r2)
             | _ => none
           else if c = dq then
             (parseStrBody r).map (fun p => (.str p.1, p.2))
           else if c = lsq then
             match skipWs r with
             | [] => none
             | c2 :: r2 =>
               if c2 = rsq then some (.arr [], r2)
               else (parseElems fuel (c2 :: r2)).map (fun p => (.arr p.1, p.2))
           else if c = lb then
             match skipWs r with
             | [] => none
             | c2 :: r2 =>
               if c2 = rb then some (.obj [], r2)
               else (parseMems fuel (c2 :: r2)).map (fun p => (.obj p.1, p.2))
           else if c = '-' || c.isDigit then
             (parseNum (c :: r)).map (fun p => (.num p.1, p.2))
           else none) := by
  rw [parseVal.eq_def]

theorem parseElems_succ (fuel : Nat) (cs : List Char) :
    parseElems (fuel + 1) cs
      = (match parseVal fuel cs with
         | none => none
         | some (v, r) =>
           match skipWs r with
           | [] => none
           | c :: r2 =>
             if c = ',' then (parseElems fuel r2).map (fun p => (v :: p.1, p.2))
             else if c = rsq then some ([v], r2)
             else none) := by
  rw [parseElems.eq_def]

theorem parseMems_succ (fuel : Nat) (cs : List Char) :
    parseMems (fuel + 1) cs
      = (match skipWs cs with
         | [] => none
         | c :: r =>
           if c = dq then
             match parseStrBody r with
             | none => none
             | some (k, r1) =>
               match skipWs r1 with
               | [] => none
               | c2 :: r2 =>
                 if c2 = ':' then
                   match parseVal fuel r2 with
                   | none => none
                   | some (v, r3) =>
                     match skipWs r3 with
                     | [] => none
                     | c3 :: r4 =>
                       if c3 = ',' then (parseMems fuel r4).map (fun p => ((k, v) :: p.1, p.2))
                       else if c3 = rb then some ([(k, v)], r4)
                       else none
                 else none
           else none) := by
  rw [parseMems.eq_def]

theorem skipWs_append_ws {pre : List Char} (h : ∀ c ∈ pre, isJsonWs c = true)
    (x : List Char) : skipWs (pre ++ x) = skipWs x := by
  induction pre with
  | nil => rfl
  | cons c p ih =>
    show skipWs (c :: (p ++ x)) = skipWs x
    unfold skipWs
    rw [List.dropWhile_cons, if_pos (h c (by simp))]
    exact ih (fun c2 hc => h c2 (by simp [hc]))

theorem parseVal_ws {pre : List Char} (h : ∀ c ∈ pre, isJsonWs c = true)
    (fuel : Nat) (x : List Char) : parseVal fuel (pre ++ x) = parseVal fuel x := by
  cases fuel with
  | zero => rfl
  | succ f => rw [parseVal_succ, parseVal_succ, skipWs_append_ws h]

theorem parseMems_ws {pre : List Char} (h : ∀ c ∈ pre, isJsonWs c = true)
    (fuel : Nat) (x : List Char) : parseMems fuel (pre ++ x) = parseMems fuel x := by
  cases fuel with
  | zero => rfl
  | succ f => rw [parseMems_succ, parseMems_succ, skipWs_append_ws h]

theorem parseElems_ws {pre : List Char} (h : ∀ c ∈ pre, isJsonWs c = true)
    (fuel : Nat) (x : List Char) : parseElems fuel (pre ++ x) = parseElems fuel x := by
  cases fuel with
  | zero => rfl
  | succ f => rw [parseElems_succ, parseElems_succ, parseVal_ws h]

end JobHunter

namespace JobHunter

theorem digit_props {c : Char} (h : c.isDigit = true) :
    ¬ c = 'n' ∧ ¬ c = 't' ∧ ¬ c = 'f' ∧ ¬ c = dq ∧ ¬ c = lsq ∧ ¬ c = lb
    ∧ isJsonWs c = false ∧ ¬ c = rsq ∧ ¬ c = rb ∧ (c = '-' || c.isDigit) = true := by
  have hws : isJsonWs c = false := by
    by_contra hh
    rw [Bool.not_eq_false] at hh
    simp only [isJsonWs, Bool.or_eq_true, decide_eq_true_eq] at hh
    rcases hh with ((rfl | rfl) | rfl) | rfl <;> exact absurd h (by decide)
  refine ⟨?_, ?_, ?_, ?_, ?_, ?_, hws, ?_, ?_, by simp [h]⟩ <;>
    (intro hh; rw [hh] at h; exact absurd h (by decide))

theorem dumps_head (j : Json) :
    ∃ c t, dumps j = c :: t ∧ isJsonWs c = false ∧ ¬ c = rsq ∧ ¬ c = rb := by
  cases j with
  | num n =>
    by_cases hn : n < 0
    · refine ⟨'-', natDigits n.natAbs, ?_, by decide⟩
      show intChars n = _
      rw [intChars, if_pos hn]
    · obtain ⟨c, t, hct, hdc⟩ := natDigits_cons n.natAbs
      obtain ⟨_, _, _, _, _, _, hws, hq, hb, _⟩ := digit_props hdc
      refine ⟨c, t, ?_, hws, hq, hb⟩
      show intChars n = _
      rw [intChars, if_neg hn, hct]
  | null => exact ⟨'n', _, rfl, by decide⟩
  | bool b => cases b with
    | true => exact ⟨'t', _, rfl, by decide⟩
    | false => exact ⟨'f', _, rfl, by decide⟩
  | str s => exact ⟨dq, _, rfl, by decide⟩
  | arr es => exact ⟨lsq, _, rfl, by decide⟩
  | obj ms => exact ⟨lb, _, rfl, by decide⟩

theorem dumps_ne_nil (j : Json) : dumps j ≠ [] := by
  obtain ⟨c, t, hct, _⟩ := dumps_head j
  rw [hct]
  simp

theorem skipWs_dumps (j : Json) (x : List Char) :
    skipWs (dumps j ++ x) = dumps j ++ x := by
  obtain ⟨c, t, hct, hws, _⟩ := dumps_head j
  rw [hct, List.cons_append]
  unfold skipWs
  rw [List.dropWhile_cons, if_neg (by simp [hws])]

end JobHunter

namespace JobHunter
example : (if lsq = 'n' then 1 else 2) = 2 := rfl

theorem parseVal_arr_step (X : List Char) (f : Nat) :
    parseVal (f + 1) (lsq :: X)
      = (match skipWs X with
         | [] => none
         | c2 :: r2 =>
           if c2 = rsq then some (Json.arr [], r2)
           else (parseElems f (c2 :: r2)).map (fun p => (Json.arr p.1, p.2))) := by
  rw [parseVal_succ]
  rw [show skipWs (lsq :: X) = lsq :: X from by
    unfold skipWs
    rw [List.dropWhile_cons, if_neg (by decide)]]
  simp [lsq, lb, dq, rsq, rb, isJsonWs]

theorem parseVal_obj_step (X : List Char) (f : Nat) :
    parseVal (f + 1) (lb :: X)
      = (match skipWs X with
         | [] => none
         | c2 :: r2 =>
           if c2 = rb then some (Json.obj [], r2)
           else (parseMems f (c2 :: r2)).map (fun p => (Json.obj p.1, p.2))) := by
  rw [parseVal_succ]
  rw [show skipWs (lb :: X) = lb :: X from by
    unfold skipWs
    rw [List.dropWhile_cons, if_neg (by decide)]]
  simp [lsq, lb, dq, rsq, rb, isJsonWs]

theorem parseVal_str_step (X : List Char) (f : Nat) :
    parseVal (f + 1) (dq :: X)
      = (parseStrBody X).map (fun p => (Json.str p.1, p.2)) := by
  rw [parseVal_succ]
  rw [show skipWs (dq :: X) = dq :: X from by
    unfold skipWs
    rw [List.dropWhile_cons, if_neg (by decide)]]
  simp [lsq, lb, dq, rsq, rb, isJsonWs]

theorem parseVal_null_step (rest : List Char) (f : Nat) :
    parseVal (f + 1) ('n' :: 'u' :: 'l' :: 'l' :: rest) = some (Json.null, rest) := by
  rw [parseVal_succ]
  rw [show skipWs ('n' :: 'u' :: 'l' :: 'l' :: rest) = 'n' :: 'u' :: 'l' :: 'l' :: rest from by
    unfold skipWs
    rw [List.dropWhile_cons, if_neg (by decide)]]
  simp [lsq, lb, dq, rsq, rb, isJsonWs]

theorem parseVal_true_step (rest : List Char) (f : Nat) :
    parseVal (f + 1) ('t' :: 'r' :: 'u' :: 'e' :: rest) = some (Json.bool true, rest) := by
  rw [parseVal_succ]
  rw [show skipWs ('t' :: 'r' :: 'u' :: 'e' :: rest) = 't' :: 'r' :: 'u' :: 'e' :: rest from by
    unfold skipWs
    rw [List.dropWhile_cons, if_neg (by decide)]]
  simp [lsq, lb, dq, rsq, rb, isJsonWs]

theorem parseVal_false_step (rest : List Char) (f : Nat) :
    parseVal (f + 1) ('f' :: 'a' :: 'l' :: 's' :: 'e' :: rest) = some (Json.bool false, rest) := by
  rw [parseVal_succ]
  rw [show skipWs ('f' :: 'a' :: 'l' :: 's' :: 'e' :: rest)
      = 'f' :: 'a' :: 'l' :: 's' :: 'e' :: rest from by
    unfold skipWs
    rw [List.dropWhile_cons, if_neg (by decide)]]
  simp [lsq, lb, dq, rsq, rb, isJsonWs]

theorem parseVal_num_step {c : Char} (hdc : (c = '-' || c.isDigit) = true)
    (hn : ¬ c = 'n') (ht : ¬ c = 't') (hf2 : ¬ c = 'f') (hq : ¬ c = dq)
    (hk : ¬ c = lsq) (hb : ¬ c = lb) (hws : isJsonWs c = false)
    (X : List Char) (f : Nat) :
    parseVal (f + 1) (c :: X)
      = (parseNum (c :: X)).map (fun p => (Json.num p.1, p.2)) := by
  rw [parseVal_succ]
  rw [show skipWs (c :: X) = c :: X from by
    unfold skipWs
    rw [List.dropWhile_cons, if_neg (by simp [hws])]]
  simp [lsq, lb, dq, rsq, rb] at hq hk hb
  simp [lsq, lb, dq, rsq, rb, hn, ht, hf2, hq, hk, hb, hdc]

end JobHunter
namespace JobHunter

end JobHunter

namespace JobHunter

theorem dumpsElems_cons_len (e : Json) (es : List Json) :
    (dumpsElems (e :: es)).length = (dumps e).length + (dumpsElemsSep es).length := by
  rw [show dumpsElems (e :: es) = dumps e ++ dumpsElemsSep es from rfl, List.length_append]

theorem dumps_len_pos (j : Json) : 1 ≤ (dumps j).length := by
  obtain ⟨c, t, hct, _⟩ := dumps_head j
  rw [hct]
  simp

mutual

theorem rt_val : ∀ (j : Json) (fuel : Nat) (rest : List Char),
    (dumps j).length < fuel → numDelim rest = true →
    parseVal fuel (dumps j ++ rest) = some (j, rest)
  | .null, fuel, rest, hf, _ => by
    match fuel, hf with
    | f + 1, hf =>
      rw [show dumps Json.null ++ rest = 'n' :: 'u' :: 'l' :: 'l' :: rest from rfl]
      exact parseVal_null_step rest f
  | .bool true, fuel, rest, hf, _ => by
    match fuel, hf with
    | f + 1, hf =>
      rw [show dumps (Json.bool true) ++ rest = 't' :: 'r' :: 'u' :: 'e' :: rest from rfl]
      exact parseVal_true_step rest f
  | .bool false, fuel, rest, hf, _ => by
    match fuel, hf with
    | f + 1, hf =>
      rw [show dumps (Json.bool false) ++ rest
          = 'f' :: 'a' :: 'l' :: 's' :: 'e' :: rest from rfl]
      exact parseVal_false_step rest f
  | .str s, fuel, rest, hf, _ => by
    match fuel, hf with
    | f + 1, hf =>
      rw [show dumps (Json.str s) ++ rest = dq :: (escStr s ++ (dq :: rest)) from by
            simp [dumps]]
      rw [parseVal_str_step, parseStrBody_escStr]
      rfl
  | .num n, fuel, rest, hf, hr => by
    match fuel, hf with
    | f + 1, hf =>
      by_cases hn : n < 0
      · rw [show dumps (Json.num n) ++ rest
            = '-' :: (natDigits n.natAbs ++ rest) from by simp [dumps, intChars, hn]]
        rw [parseVal_num_step (by decide) (by decide) (by decide) (by decide)
              (by decide) (by decide) (by decide) (by decide)]
        rw [show ('-' :: (natDigits n.natAbs ++ rest)) = intChars n ++ rest from by
              simp [intChars, hn]]
        rw [parseNum_intChars n rest hr]
        rfl
      · obtain ⟨c, t, hct, hdc⟩ := natDigits_cons n.natAbs
        obtain ⟨h1, h2, h3, h4, h5, h6, h7, _, _, h10⟩ := digit_props hdc
        rw [show dumps (Json.num n) ++ rest = c :: (t ++ rest) from by
              simp [dumps, intChars, hn, hct]]
        rw [parseVal_num_step h10 h1 h2 h3 h4 h5 h6 h7]
        rw [show (c :: (t ++ rest)) = intChars n ++ rest from by
              simp [intChars, hn, hct]]
        rw [parseNum_intChars n rest hr]
        rfl
  | .arr [], fuel, rest, hf, _ => by
    match fuel, hf with
    | f + 1, hf =>
      rw [show dumps (Json.arr []) ++ rest = lsq :: (rsq :: rest) from by
            simp [dumps, dumpsElems]]
      rw [parseVal_arr_step]
      rw [show skipWs (rsq :: rest) = rsq :: rest from by
        unfold skipWs
        rw [List.dropWhile_cons, if_neg (by decide)]]
      simp
  | .arr (e :: es), fuel, rest, hf, _ => by
    match fuel, hf with
    | f + 1, hf =>
      have hflen : (dumpsElems (e :: es)).length + 1 < f := by
        rw [show dumps (Json.arr (e :: es))
            = lsq :: (dumpsElems (e :: es) ++ [rsq]) from rfl] at hf
        simp only [List.length_cons, List.length_append, List.length_singleton] at hf
        omega
      rw [show dumps (Json.arr (e :: es)) ++ rest
          = lsq :: (dumpsElems (e :: es) ++ rsq :: rest) from by
            simp [dumps]]
      rw [parseVal_arr_step]
      obtain ⟨c, t, hct, hws, hq, _⟩ := dumps_head e
      have hx : dumpsElems (e :: es) ++ rsq :: rest
          = c :: (t ++ (dumpsElemsSep es ++ rsq :: rest)) := by
        rw [show dumpsElems (e :: es) = dumps e ++ dumpsElemsSep es from rfl, hct]
        simp
      have hE := rt_elems e es f rest hflen
      rw [hx] at hE
      rw [hx]
      rw [show skipWs (c :: (t ++ (dumpsElemsSep es ++ rsq :: rest)))
          = c :: (t ++ (dumpsElemsSep es ++ rsq :: rest)) from by
        unfold skipWs
        rw [List.dropWhile_cons, if_neg (by simp [hws])]]
      simp [hq, hE]
  | .obj [], fuel, rest, hf, _ => by
    match fuel, hf with
    | f + 1, hf =>
      rw [show dumps (Json.obj []) ++ rest = lb :: (rb :: rest) from by
            simp [dumps, dumpsMems]]
      rw [parseVal_obj_step]
      rw [show skipWs (rb :: rest) = rb :: rest from by
        unfold skipWs
        rw [List.dropWhile_cons, if_neg (by decide)]]
      simp
  | .obj (kv :: ms), fuel, rest, hf, _ => by
    match fuel, hf with
    | f + 1, hf =>
      have hflen : (dumpsMems (kv :: ms)).length + 1 < f := by
        rw [show dumps (Json.obj (kv :: ms))
            = lb :: (dumpsMems (kv :: ms) ++ [rb]) from rfl] at hf
        simp only [List.length_cons, List.length_append, List.length_singleton] at hf
        omega
      rw [show dumps (Json.obj (kv :: ms)) ++ rest
          = lb :: (dumpsMems (kv :: ms) ++ rb :: rest) from by
            simp [dumps]]
      rw [parseVal_obj_step]
      have hx : dumpsMems (kv :: ms) ++ rb :: rest
          = dq :: (escStr kv.1 ++ (dq :: ':' :: ' ' :: (dumps kv.2 ++ dumpsMemsSep ms))
              ++ rb :: rest) := by
        rw [show dumpsMems (kv :: ms)
            = dq :: (escStr kv.1 ++ (dq :: ':' :: ' ' :: (dumps kv.2 ++ dumpsMemsSep ms)))
            from by
              obtain ⟨k2, v2⟩ := kv
              rfl]
        simp
      have hM := rt_mems kv ms f rest hflen
      rw [hx] at hM
      rw [hx]
      rw [show skipWs (dq :: (escStr kv.1 ++ (dq :: ':' :: ' ' :: (dumps kv.2
            ++ dumpsMemsSep ms)) ++ rb :: rest))
          = dq :: (escStr kv.1 ++ (dq :: ':' :: ' ' :: (dumps kv.2 ++ dumpsMemsSep ms))
              ++ rb :: rest) from by
        unfold skipWs
        rw [List.dropWhile_cons, if_neg (by decide)]]
      show (if dq = rb then some (Json.obj [], escStr kv.1
              ++ (dq :: ':' :: ' ' :: (dumps kv.2 ++ dumpsMemsSep ms)) ++ rb :: rest)
            else Option.map (fun p => (Json.obj p.1, p.2))
              (parseMems f (dq :: (escStr kv.1
                ++ (dq :: ':' :: ' ' :: (dumps kv.2 ++ dumpsMemsSep ms)) ++ rb :: rest))))
          = some (Json.obj (kv :: ms), rest)
      rw [if_neg (show ¬ dq = rb from by decide), hM]
      rfl
  termination_by j _ _ _ _ => sizeOf j

theorem rt_elems : ∀ (e : Json) (es : List Json) (fuel : Nat) (rest : List Char),
    (dumpsElems (e :: es)).length + 1 < fuel →
    parseElems fuel (dumpsElems (e :: es) ++ rsq :: rest) = some (e :: es, rest)
  | e, [], fuel, rest, hf => by
    match fuel, hf with
    | g + 1, hf =>
      rw [parseElems_succ]
      have harg : dumpsElems (e :: []) ++ rsq :: rest = dumps e ++ rsq :: rest := by
        rw [show dumpsElems (e :: []) = dumps e ++ dumpsElemsSep [] from rfl]
        simp [dumpsElemsSep]
      have hlen : (dumps e).length < g := by
        rw [dumpsElems_cons_len] at hf
        omega
      rw [harg, rt_val e g (rsq :: rest) hlen (by rfl)]
      have hsw : skipWs (rsq :: rest) = rsq :: rest := by
        unfold skipWs
        rw [List.dropWhile_cons, if_neg (by decide)]
      simp [hsw, show ¬ rsq = ',' from by decide]
  | e, x :: xs, fuel, rest, hf => by
    match fuel, hf with
    | g + 1, hf =>
      rw [parseElems_succ]
      have harg : dumpsElems (e :: x :: xs) ++ rsq :: rest
          = dumps e ++ (',' :: ' ' :: (dumpsElems (x :: xs) ++ rsq :: rest)) := by
        rw [show dumpsElems (e :: x :: xs) = dumps e ++ dumpsElemsSep (x :: xs) from rfl,
            show dumpsElemsSep (x :: xs) = ',' :: ' ' :: (dumps x ++ dumpsElemsSep xs)
              from rfl,
            show dumpsElems (x :: xs) = dumps x ++ dumpsElemsSep xs from rfl]
        simp
      have hlen : (dumps e).length < g := by
        rw [dumpsElems_cons_len] at hf
        omega
      have hlen2 : (dumpsElems (x :: xs)).length + 1 < g := by
        rw [dumpsElems_cons_len,
            show (dumpsElemsSep (x :: xs)).length
              = 2 + (dumpsElems (x :: xs)).length from by
                rw [show dumpsElemsSep (x :: xs) = ',' :: ' ' :: (dumps x ++ dumpsElemsSep xs)
                      from rfl,
                    show dumpsElems (x :: xs) = dumps x ++ dumpsElemsSep xs from rfl]
                simp only [List.length_cons, List.length_append]
                omega] at hf
        have := dumps_len_pos e
        omega
      rw [harg, rt_val e g (',' :: ' ' :: (dumpsElems (x :: xs) ++ rsq :: rest)) hlen
            (by rfl)]
      have hsw : skipWs (',' :: ' ' :: (dumpsElems (x :: xs) ++ rsq :: rest))
          = ',' :: ' ' :: (dumpsElems (x :: xs) ++ rsq :: rest) := by
        unfold skipWs
        rw [List.dropWhile_cons, if_neg (by decide)]
      have hE : parseElems g (' ' :: (dumpsElems (x :: xs) ++ rsq :: rest))
          = some (x :: xs, rest) := by
        rw [show (' ' :: (dumpsElems (x :: xs) ++ rsq :: rest))
            = [' '] ++ (dumpsElems (x :: xs) ++ rsq :: rest) from rfl,
            @parseElems_ws [' '] (by decide) g _, rt_elems x xs g rest hlen2]
      simp [hsw, hE]
  termination_by e es _ _ _ => sizeOf e + sizeOf es

theorem rt_mems : ∀ (kv : List Char × Json) (ms : List (List Char × Json))
    (fuel : Nat) (rest : List Char),
    (dumpsMems (kv :: ms)).length + 1 < fuel →
    parseMems fuel (dumpsMems (kv :: ms) ++ rb :: rest) = some (kv :: ms, rest)
  | (k, v), ms, fuel, rest, hf => by
    match fuel, hf with
    | g + 1, hf =>
      rw [parseMems_succ]
      have harg : dumpsMems ((k, v) :: ms) ++ rb :: rest
          = dq :: (escStr k ++ (dq :: ':' :: ' '
              :: (dumps v ++ (dumpsMemsSep ms ++ rb :: rest)))) := by
        rw [show dumpsMems ((k, v) :: ms)
            = dq :: (escStr k ++ (dq :: ':' :: ' ' :: (dumps v ++ dumpsMemsSep ms)))
            from rfl]
        simp
      rw [harg]
      rw [show skipWs (dq :: (escStr k ++ (dq :: ':' :: ' '
            :: (dumps v ++ (dumpsMemsSep ms ++ rb :: rest)))))
          = dq :: (escStr k ++ (dq :: ':' :: ' '
              :: (dumps v ++ (dumpsMemsSep ms ++ rb :: rest)))) from by
        unfold skipWs
        rw [List.dropWhile_cons, if_neg (by decide)]]
      have hlen : (dumps v).length < g := by
        rw [show dumpsMems ((k, v) :: ms)
            = dq :: (escStr k ++ (dq :: ':' :: ' ' :: (dumps v ++ dumpsMemsSep ms)))
            from rfl] at hf
        simp only [List.length_cons, List.length_append] at hf
        omega
      have hval : parseVal g (' ' :: (dumps v ++ (dumpsMemsSep ms ++ rb :: rest)))
          = some (v, dumpsMemsSep ms ++ rb :: rest) := by
        rw [show (' ' :: (dumps v ++ (dumpsMemsSep ms ++ rb :: rest)))
            = [' '] ++ (dumps v ++ (dumpsMemsSep ms ++ rb :: rest)) from rfl,
            @parseVal_ws [' '] (by decide)]
        refine rt_val v g _ hlen ?_
        cases ms with
        | nil => rfl
        | cons m2 ms2 =>
          rw [show dumpsMemsSep (m2 :: ms2) = ',' :: ' ' :: dumpsMems (m2 :: ms2) from by
            obtain ⟨k2, v2⟩ := m2
            rfl]
          rfl
      have hstr := parseStrBody_escStr k (':' :: ' '
          :: (dumps v ++ (dumpsMemsSep ms ++ rb :: rest)))
      have hsw2 : skipWs (':' :: ' ' :: (dumps v ++ (dumpsMemsSep ms ++ rb :: rest)))
          = ':' :: ' ' :: (dumps v ++ (dumpsMemsSep ms ++ rb :: rest)) := by
        unfold skipWs
        rw [List.dropWhile_cons, if_neg (by decide)]
      cases ms with
      | nil =>
        have hsw3 : skipWs (dumpsMemsSep [] ++ rb :: rest) = rb :: rest := by
          rw [show dumpsMemsSep ([] : List (List Char × Json)) = [] from rfl]
          unfold skipWs
          rw [List.nil_append, List.dropWhile_cons, if_neg (by decide)]
        simp [hstr, hsw2, hval, hsw3, show ¬ rb = ',' from by decide]
      | cons m2 ms2 =>
        have hsep : dumpsMemsSep (m2 :: ms2) = ',' :: ' ' :: dumpsMems (m2 :: ms2) := by
          obtain ⟨k2, v2⟩ := m2
          rfl
        have hsw3 : skipWs (dumpsMemsSep (m2 :: ms2) ++ rb :: rest)
            = ',' :: ' ' :: (dumpsMems (m2 :: ms2) ++ rb :: rest) := by
          rw [hsep]
          unfold skipWs
          rw [List.cons_append, List.dropWhile_cons, if_neg (by decide)]
          rfl
        have hlen2 : (dumpsMems (m2 :: ms2)).length + 1 < g := by
          rw [show dumpsMems ((k, v) :: m2 :: ms2)
              = dq :: (escStr k ++ (dq :: ':' :: ' '
                  :: (dumps v ++ dumpsMemsSep (m2 :: ms2)))) from rfl, hsep] at hf
          simp only [List.length_cons, List.length_append] at hf
          omega
        have hM : parseMems g (' ' :: (dumpsMems (m2 :: ms2) ++ rb :: rest))
            = some (m2 :: ms2, rest) := by
          rw [show (' ' :: (dumpsMems (m2 :: ms2) ++ rb :: rest))
              = [' '] ++ (dumpsMems (m2 :: ms2) ++ rb :: rest) from rfl,
              @parseMems_ws [' '] (by decide) g _, rt_mems m2 ms2 g rest hlen2]
        simp [hstr, hsw2, hval, hsw3, hM]
  termination_by kv ms _ _ _ => sizeOf kv + sizeOf ms

end

end JobHunter

namespace JobHunter

theorem jsonLoads_dumps (j : Json) : jsonLoads (dumps j) = some j := by
  have h := rt_val j ((dumps j).length + 1) [] (by omega) (by rfl)
  rw [List.append_nil] at h
  unfold jsonLoads
  rw [h]
  rfl

theorem isPrefixOf_cons_cons (a b : Char) (as bs : List Char) :
    (a :: as).isPrefixOf (b :: bs) = ((a == b) && as.isPrefixOf bs) := rfl

theorem isPrefixOf_append (l t : List Char) : l.isPrefixOf (l ++ t) = true := by
  induction l with
  | nil => cases t <;> rfl
  | cons c r ih =>
    rw [List.cons_append, isPrefixOf_cons_cons]
    simp [ih]

theorem pySplitOnce_cons_neg {sep : List Char} {c : Char} {r : List Char}
    (h : sep.isPrefixOf (c :: r) = false) :
    pySplitOnce sep (c :: r) = (pySplitOnce sep r).map (fun p => (c :: p.1, p.2)) := by
  rw [pySplitOnce.eq_def]
  cases hE : pySplitOnce sep r with
  | none => simp [h, hE]
  | some p =>
    obtain ⟨a, b⟩ := p
    simp [h, hE]

theorem pySplitOnce_cons_pos {sep : List Char} {c : Char} {r : List Char}
    (h : sep.isPrefixOf (c :: r) = true) :
    pySplitOnce sep (c :: r) = some ([], (c :: r).drop sep.length) := by
  rw [pySplitOnce.eq_def]
  simp [h]

theorem pySplitOnce_prefix (sep rest : List Char) (hs : ¬ sep = []) :
    pySplitOnce sep (sep ++ rest) = some ([], rest) := by
  cases sep with
  | nil => exact absurd rfl hs
  | cons s0 s' =>
    rw [List.cons_append, pySplitOnce_cons_pos (by
      rw [← List.cons_append]
      exact isPrefixOf_append _ _)]
    rw [← List.cons_append, List.drop_left]

theorem pySplitOnce_skip (s0 : Char) (s' d t : List Char)
    (h : ∀ c ∈ d, ¬ s0 = c) :
    pySplitOnce (s0 :: s') (d ++ t)
      = (pySplitOnce (s0 :: s') t).map (fun p => (d ++ p.1, p.2)) := by
  induction d with
  | nil =>
    cases hE : pySplitOnce (s0 :: s') t with
    | none => simp [hE]
    | some p => simp [hE]
  | cons c d ih =>
    rw [List.cons_append, pySplitOnce_cons_neg (by
      rw [isPrefixOf_cons_cons]
      have : ¬ s0 = c := h c (List.mem_cons_self c d)
      simp [this])]
    rw [ih (fun x hx => h x (List.mem_cons_of_mem c hx))]
    cases hE : pySplitOnce (s0 :: s') t with
    | none => simp [hE]
    | some p => simp [hE]

theorem pyStrip_wrap (ms : List (List Char × Json)) :
    pyStrip ('\n' :: (dumps (Json.obj ms) ++ ['\n'])) = dumps (Json.obj ms) := by
  have hobj : dumps (Json.obj ms) = lb :: (dumpsMems ms ++ [rb]) := rfl
  rw [pyStrip]
  rw [show pyLstrip ('\n' :: (dumps (Json.obj ms) ++ ['\n']))
      = pyLstrip (dumps (Json.obj ms) ++ ['\n']) from by
    unfold pyLstrip
    rw [List.dropWhile_cons, if_pos (by decide)]]
  rw [show pyLstrip (dumps (Json.obj ms) ++ ['\n']) = dumps (Json.obj ms) ++ ['\n'] from by
    rw [hobj]
    unfold pyLstrip
    rw [List.cons_append, List.dropWhile_cons, if_neg (by decide)]]
  unfold pyRstrip
  rw [show (dumps (Json.obj ms) ++ ['\n']).reverse
      = '\n' :: (dumps (Json.obj ms)).reverse from by simp]
  rw [List.dropWhile_cons, if_pos (by decide)]
  rw [show List.dropWhile isPyWs (dumps (Json.obj ms)).reverse
      = (dumps (Json.obj ms)).reverse from by
    rw [hobj]
    rw [show (lb :: (dumpsMems ms ++ [rb])).reverse
        = rb :: ((dumpsMems ms).reverse ++ [lb]) from by simp]
    rw [List.dropWhile_cons, if_neg (by decide)]]
  rw [List.reverse_reverse]

theorem backtickFree_head (ms : List (List Char × Json))
    (h : backtickFree (dumps (Json.obj ms)) = true) :
    ∀ c ∈ '\n' :: (dumps (Json.obj ms) ++ ['\n']), ¬ backquote = c := by
  intro c hc
  rcases List.mem_cons.1 hc with h1 | h2
  · rw [h1]
    decide
  · rcases List.mem_append.1 h2 with h3 | h4
    · unfold backtickFree at h
      have hb := List.all_eq_true.1 h c h3
      simp only [Bool.not_eq_true'] at hb
      have hb2 : ¬ c = backquote := by
        intro he
        rw [he] at hb
        simp at hb
      exact fun he => hb2 he.symm
    · rw [List.mem_singleton.1 h4]
      decide

end JobHunter

namespace JobHunter

theorem extractTry_labeled (ms : List (List Char × Json))
    (h : backtickFree (dumps (Json.obj ms)) = true) :
    extractTry (wrapJsonFence (dumps (Json.obj ms))) = some (Json.obj ms) := by
  have h1 : pySplitOnce fenceJson (wrapJsonFence (dumps (Json.obj ms)))
      = some ([], ('\n' :: (dumps (Json.obj ms) ++ ['\n'])) ++ fence3) := by
    rw [show wrapJsonFence (dumps (Json.obj ms))
        = fenceJson ++ (('\n' :: (dumps (Json.obj ms) ++ ['\n'])) ++ fence3) from by
      unfold wrapJsonFence
      rw [show ("```json\n".toList : List Char) = fenceJson ++ ['\n'] from rfl,
          show ("\n```".toList : List Char) = '\n' :: fence3 from rfl]
      simp]
    exact pySplitOnce_prefix _ _ (by decide)
  have h2 : pySplitOnce fence3 (('\n' :: (dumps (Json.obj ms) ++ ['\n'])) ++ fence3)
      = some ('\n' :: (dumps (Json.obj ms) ++ ['\n']), []) := by
    have hk := pySplitOnce_skip backquote [backquote, backquote]
        ('\n' :: (dumps (Json.obj ms) ++ ['\n'])) fence3 (backtickFree_head ms h)
    rw [show (backquote :: [backquote, backquote] : List Char) = fence3 from rfl] at hk
    rw [hk, show pySplitOnce fence3 fence3 = some ([], []) from rfl]
    simp
  have h3 : jsonLoads (pyStrip ('\n' :: (dumps (Json.obj ms) ++ ['\n'])))
      = some (Json.obj ms) := by
    rw [pyStrip_wrap, jsonLoads_dumps]
  simp only [extractTry, h1, h2, h3]

theorem extractTry_bare (ms : List (List Char × Json))
    (h : backtickFree (dumps (Json.obj ms)) = true) :
    extractTry (wrapBareFence (dumps (Json.obj ms))) = some (Json.obj ms) := by
  have hd : wrapBareFence (dumps (Json.obj ms))
      = backquote :: backquote :: backquote
          :: (('\n' :: (dumps (Json.obj ms) ++ ['\n'])) ++ fence3) := by
    unfold wrapBareFence
    rw [show ("```\n".toList : List Char) = backquote :: backquote :: backquote :: ['\n']
          from rfl,
        show ("\n```".toList : List Char) = '\n' :: fence3 from rfl]
    simp
  have h0 : pySplitOnce fenceJson (wrapBareFence (dumps (Json.obj ms))) = none := by
    rw [hd]
    rw [pySplitOnce_cons_neg (show fenceJson.isPrefixOf (backquote :: backquote :: backquote
          :: (('\n' :: (dumps (Json.obj ms) ++ ['\n'])) ++ fence3)) = false from by
      rw [show fenceJson = backquote :: backquote :: backquote :: 'j' :: ['s', 'o', 'n']
            from rfl]
      rw [isPrefixOf_cons_cons, isPrefixOf_cons_cons, isPrefixOf_cons_cons,
          List.cons_append, isPrefixOf_cons_cons]
      simp [show (('j' : Char) == '\n') = false from rfl])]
    rw [pySplitOnce_cons_neg (show fenceJson.isPrefixOf (backquote :: backquote
          :: (('\n' :: (dumps (Json.obj ms) ++ ['\n'])) ++ fence3)) = false from by
      rw [show fenceJson = backquote :: backquote :: backquote :: 'j' :: ['s', 'o', 'n']
            from rfl]
      rw [isPrefixOf_cons_cons, isPrefixOf_cons_cons, List.cons_append,
          isPrefixOf_cons_cons]
      simp [show (backquote == '\n') = false from rfl])]
    rw [pySplitOnce_cons_neg (show fenceJson.isPrefixOf (backquote
          :: (('\n' :: (dumps (Json.obj ms) ++ ['\n'])) ++ fence3)) = false from by
      rw [show fenceJson = backquote :: backquote :: backquote :: 'j' :: ['s', 'o', 'n']
            from rfl]
      rw [isPrefixOf_cons_cons, List.cons_append, isPrefixOf_cons_cons]
      simp [show (backquote == '\n') = false from rfl])]
    have hk := pySplitOnce_skip backquote [backquote, backquote, 'j', 's', 'o', 'n']
        ('\n' :: (dumps (Json.obj ms) ++ ['\n'])) fence3 (backtickFree_head ms h)
    rw [show (backquote :: [backquote, backquote, 'j', 's', 'o', 'n'] : List Char)
        = fenceJson from rfl] at hk
    rw [hk, show pySplitOnce fenceJson fence3 = none from rfl]
    rfl
  have h1b : pySplitOnce fence3 (wrapBareFence (dumps (Json.obj ms)))
      = some ([], ('\n' :: (dumps (Json.obj ms) ++ ['\n'])) ++ fence3) := by
    rw [show wrapBareFence (dumps (Json.obj ms))
        = fence3 ++ (('\n' :: (dumps (Json.obj ms) ++ ['\n'])) ++ fence3) from by
      unfold wrapBareFence
      rw [show ("```\n".toList : List Char) = fence3 ++ ['\n'] from rfl,
          show ("\n```".toList : List Char) = '\n' :: fence3 from rfl]
      simp]
    exact pySplitOnce_prefix _ _ (by decide)
  have h2 : pySplitOnce fence3 (('\n' :: (dumps (Json.obj ms) ++ ['\n'])) ++ fence3)
      = some ('\n' :: (dumps (Json.obj ms) ++ ['\n']), []) := by
    have hk := pySplitOnce_skip backquote [backquote, backquote]
        ('\n' :: (dumps (Json.obj ms) ++ ['\n'])) fence3 (backtickFree_head ms h)
    rw [show (backquote :: [backquote, backquote] : List Char) = fence3 from rfl] at hk
    rw [hk, show pySplitOnce fence3 fence3 = some ([], []) from rfl]
    simp
  have h3 : jsonLoads (pyStrip ('\n' :: (dumps (Json.obj ms) ++ ['\n'])))
      = some (Json.obj ms) := by
    rw [pyStrip_wrap, jsonLoads_dumps]
  simp only [extractTry, h0, extractNoJsonFence, h1b, h2, h3]

/-- C9: for a well-formed JSON object whose serialization is free of
backquotes, wrapping the serialization in a fenced code block - with or
without the `json` label - and running `_extract_json` returns exactly the
original object.  (The backquote-freedom hypothesis is the correction; see
the counterexample.) -/
theorem extract_fenced_roundtrip (ms : List (List Char × Json))
    (h : backtickFree (dumps (Json.obj ms)) = true) :
    extractJson (wrapJsonFence (dumps (Json.obj ms))) = Except.ok (Json.obj ms)
    ∧ extractJson (wrapBareFence (dumps (Json.obj ms))) = Except.ok (Json.obj ms) := by
  constructor
  · unfold extractJson
    rw [extractTry_labeled ms h]
  · unfold extractJson
    rw [extractTry_bare ms h]

/-- C9 counterexample: an object whose string value contains a bare fence
marker does not survive the round trip - the inner fence split cuts the JSON
at the marker inside the string, and the extractor ends up raising
`ValueError`. -/
theorem extract_fenced_counterexample :
    ¬ extractJson (wrapJsonFence (dumps c9obj)) = Except.ok c9obj := by
  intro hcon
  rw [show extractJson (wrapJsonFence (dumps c9obj)) = Except.error extractErr from rfl] at hcon
  exact Except.noConfusion hcon

/-- C9 witness: the round-trip theorem applied to the concrete object
`\x7b"a": 5\x7d`. -/
theorem extract_fenced_roundtrip_witness :
    backtickFree (dumps (Json.obj [(['a'], Json.num 5)])) = true
    ∧ (extractJson (wrapJsonFence (dumps (Json.obj [(['a'], Json.num 5)])))
        = Except.ok (Json.obj [(['a'], Json.num 5)])
      ∧ extractJson (wrapBareFence (dumps (Json.obj [(['a'], Json.num 5)])))
        = Except.ok (Json.obj [(['a'], Json.num 5)])) :=
  ⟨rfl, extract_fenced_roundtrip [(['a'], Json.num 5)] rfl⟩

end JobHunter
